import Mathlib

/-!
Verification of the documentation annotation pipeline of `openapi-review-lib`
(`src/docsProcessor.ts`), against its natural-language specification.

The pipeline operates on a mutable ordered tree of typed content nodes
(a unist/mdast tree).  We embed the tree shallowly: a node carries its
`type` tag, a heading `depth`, a raw `value` (for `text`/`html`/`code`
nodes), a `lang`, a `url`, and an ordered list of children.  Fields that a
given mdast node kind does not possess are carried as defaults (`0`, `""`,
`[]`); the pipeline code only ever reads fields it knows to be present,
except for the error paths modelled explicitly below.

Tree-mutating stages (`unist-util-visit` with in-place splicing and
explicit resume indices) are embedded as structurally faithful recursive
functions on the children lists: the visitor tests a node, optionally
splices siblings into the current parent list, and traversal resumes
exactly where the source visitor's returned index dictates.  Fallible
JavaScript code (property access on `undefined`, indexing a failed regex
match) is embedded in `Except String`.
-/

/-- A unist content node: `type` tag, heading `depth`, raw `value`,
code `lang`, link `url`, and ordered children. -/
inductive Node where
  | mk (type : String) (depth : Nat) (value : String) (lang : String) (url : String)
       (children : List Node)

def Node.type : Node → String
  | .mk t _ _ _ _ _ => t

def Node.depth : Node → Nat
  | .mk _ d _ _ _ _ => d

def Node.value : Node → String
  | .mk _ _ v _ _ _ => v

def Node.lang : Node → String
  | .mk _ _ _ lg _ _ => lg

def Node.url : Node → String
  | .mk _ _ _ _ u _ => u

def Node.children : Node → List Node
  | .mk _ _ _ _ _ cs => cs

/-- Builder for `u("text", value)`. -/
def uText (s : String) : Node := .mk "text" 0 s "" "" []

/-- Builder for `u("html", value)`. -/
def uHtml (s : String) : Node := .mk "html" 0 s "" "" []

/-- Builder for `u("paragraph", children)`. -/
def uParagraph (cs : List Node) : Node := .mk "paragraph" 0 "" "" "" cs

/-- Builder for `u("strong", children)`. -/
def uStrong (cs : List Node) : Node := .mk "strong" 0 "" "" "" cs

/-- Builder for `u("blockquote", children)`. -/
def uBlockquote (cs : List Node) : Node := .mk "blockquote" 0 "" "" "" cs

/-- Builder for `u("heading", --depth: d--, children)`. -/
def uHeading (d : Nat) (cs : List Node) : Node := .mk "heading" d "" "" "" cs

/-- Builder for `u("link", --url--, children)`. -/
def uLink (url : String) (cs : List Node) : Node := .mk "link" 0 "" "" url cs

/-- Builder for `u("code", --lang--, value)`. -/
def uCode (lang : String) (v : String) : Node := .mk "code" 0 v lang "" []

/-- Builder for `u("table", rows)`. -/
def uTable (rows : List Node) : Node := .mk "table" 0 "" "" "" rows

/-- Builder for `u("tableRow", cells)`. -/
def uTableRow (cells : List Node) : Node := .mk "tableRow" 0 "" "" "" cells

/-- Builder for `u("tableCell", children)`. -/
def uTableCell (cs : List Node) : Node := .mk "tableCell" 0 "" "" "" cs

/-- A remark document root node. -/
def uRoot (cs : List Node) : Node := .mk "root" 0 "" "" "" cs

/-- JavaScript `s.startsWith(p)`: character-sequence prefix test. -/
def jsStartsWith (s p : String) : Bool := p.data.isPrefixOf s.data

/- Models `unist-util-find` with test `--type: "text"--`: first node of
type `text` in preorder (the searched node itself included). -/
mutual
def findTextNode : Node → Option Node
  | .mk ty d v lg ur cs =>
    if ty == "text" then some (.mk ty d v lg ur cs) else findTextNodeL cs
def findTextNodeL : List Node → Option Node
  | [] => none
  | n :: ns =>
    match findTextNode n with
    | some r => some r
    | none => findTextNodeL ns
end

/-- Closing part of the heading regex: the char sequence ends with `</h`,
a digit and `>`. -/
def headingCloseAtEnd (cs : List Char) : Bool :=
  match cs.reverse with
  | '>' :: c :: 'h' :: '/' :: '<' :: _ => c.isDigit
  | _ => false

/-- Models one line against the regex `^<h(\d).*<\/h\d>$`: the line must
start with `<h` followed by a digit and end with `</h`, a digit and `>`;
the first digit is captured. -/
def lineHeadingDepth (line : List Char) : Option Nat :=
  match line with
  | '<' :: 'h' :: c :: rest =>
    if c.isDigit && headingCloseAtEnd rest then some (c.toNat - '0'.toNat) else none
  | _ => none

/-- Splits a character sequence into its newline-separated lines. -/
def splitLinesChars : List Char → List (List Char)
  | [] => [[]]
  | c :: cs =>
    if c = '\n' then [] :: splitLinesChars cs
    else
      match splitLinesChars cs with
      | [] => [[c]]
      | l :: ls => (c :: l) :: ls

/-- Models `value.match(/^<h(\d).*<\/h\d>$/m)`: with the `m` flag the
anchors bind to individual lines, so the first matching line wins. -/
def firstHeadingLineDepth (v : String) : Option Nat :=
  (splitLinesChars v.data).findSome? lineHeadingDepth

/-- Source `isHeading(depth?, depthIsMax)`: matches a structural `heading`
node by depth, or an `html` node whose value contains a single-line heading
tag (extended predicate).  A `depth` of `0` behaves like an absent depth
because JavaScript `!depth` is true for `0`. -/
def isHeading (depth : Option Nat) (depthIsMax : Bool) (n : Node) : Bool :=
  let isCorrectDepth : Nat → Bool := fun nodeDepth =>
    match depth with
    | none => true
    | some 0 => true
    | some dp => if depthIsMax then nodeDepth ≤ dp else nodeDepth == dp
  if n.type == "heading" then
    isCorrectDepth n.depth
  else if n.type == "html" then
    match firstHeadingLineDepth n.value with
    | some d => isCorrectDepth d
    | none => false
  else
    false

/-- The collapser visitor test `isHeading(2)`. -/
def headingTest2 (n : Node) : Bool := isHeading (some 2) false n

/-- The collapser boundary test `isHeading(2, true)` (maximum-depth mode). -/
def boundaryTest (n : Node) : Bool := isHeading (some 2) true n

/-- The notifier visitor test, `unist-util-is` against the object
`--type: "heading", depth: 2--` (structural headings only). -/
def notifierTest (n : Node) : Bool := n.type == "heading" && n.depth == 2

/- Counts the nodes of a subtree satisfying `p` (the node itself
included).  Used as a termination measure for the splicing traversals. -/
mutual
def dcN (p : Node → Bool) : Node → Nat
  | .mk ty d v lg ur cs => (if p (.mk ty d v lg ur cs) then 1 else 0) + dcL p cs
def dcL (p : Node → Bool) : List Node → Nat
  | [] => 0
  | n :: ns => dcN p n + dcL p ns
end

/- Removal pass of `removeUnwantedNodes`: `visit(tree, ..., visitor)`
where the visitor splices the matched node out of its parent and returns
`[visit.SKIP, index]`, i.e. the removed subtree is not revisited and
traversal resumes at the node that slid into the removed position.  This
is exactly a recursive filter that does not descend into removed nodes. -/
mutual
def stripNode (test : Node → Bool) : Node → Node
  | .mk ty d v lg ur cs => .mk ty d v lg ur (stripList test cs)
def stripList (test : Node → Bool) : List Node → List Node
  | [] => []
  | n :: rest =>
    if test n then stripList test rest
    else stripNode test n :: stripList test rest
end

/-- Rule (a) of the Boilerplate Stripper: `html` nodes whose value starts
with `<h1`. -/
def stripHtmlH1Test (n : Node) : Bool :=
  n.type == "html" && jsStartsWith n.value "<h1"

/-- Rule (b): `blockquote` nodes whose first descendant text starts with
`"Scroll down for"`. -/
def stripScrollTest (n : Node) : Bool :=
  n.type == "blockquote" &&
    match findTextNode n with
    | some tn => jsStartsWith tn.value "Scroll down for"
    | none => false

/-- Rule (c): `heading` nodes whose first descendant text is exactly
`"Authentication"`. -/
def stripAuthTest (n : Node) : Bool :=
  n.type == "heading" &&
    match findTextNode n with
    | some tn => tn.value == "Authentication"
    | none => false

/-- Source `removeUnwantedNodes`: three independent removal passes over
the whole tree, in source order (html `<h1`, then `Scroll down for`
blockquotes, then `Authentication` headings).  The root node itself is
never tested by any rule in the source because a remark root has type
`root`, which none of the rules match; the embedding therefore applies
each pass to the children of the given node. -/
def removeUnwantedNodes (t : Node) : Node :=
  stripNode stripAuthTest (stripNode stripScrollTest (stripNode stripHtmlH1Test t))

/-- The opening collapsible-block marker `u("html", "<details>\n<summary>Docs</summary>")`. -/
def openDetails : Node := uHtml "<details>\n<summary>Docs</summary>"

/-- The closing collapsible-block marker `u("html", "</details>")`. -/
def closeDetails : Node := uHtml "</details>"

/-- Splits a sibling list at the first node matching the collapser
boundary test `isHeading(2, true)`; models the source `findIndex` scan
for the closing-marker position. -/
def splitAtBoundary : List Node → List Node × List Node
  | [] => ([], [])
  | n :: rest =>
    if boundaryTest n then ([], n :: rest)
    else
      let p := splitAtBoundary rest
      (n :: p.1, p.2)

theorem splitAtBoundary_append (l : List Node) :
    (splitAtBoundary l).1 ++ (splitAtBoundary l).2 = l := by
  induction l with
  | nil => simp [splitAtBoundary]
  | cons n rest ih =>
    by_cases h : boundaryTest n
    · simp [splitAtBoundary, h]
    · simp [splitAtBoundary, h, ih]

theorem splitAtBoundary_no_match (l : List Node) :
    ∀ m ∈ (splitAtBoundary l).1, boundaryTest m = false := by
  induction l with
  | nil => simp [splitAtBoundary]
  | cons n rest ih =>
    by_cases h : boundaryTest n
    · simp [splitAtBoundary, h]
    · simp only [splitAtBoundary, h]
      intro m hm
      simp at hm
      rcases hm with rfl | hm
      · simpa using h
      · exact ih m hm

theorem dcL_append (p : Node → Bool) (a b : List Node) :
    dcL p (a ++ b) = dcL p a + dcL p b := by
  induction a with
  | nil => simp [dcL]
  | cons n rest ih => simp [dcL, ih]; omega

theorem dcN_pos (p : Node → Bool) (n : Node) (h : p n = true) : 1 ≤ dcN p n := by
  cases n with
  | mk ty d v lg ur cs => simp [dcN, h]

theorem dcN_zero_not (p : Node → Bool) (n : Node) (h : dcN p n = 0) : p n = false := by
  cases n with
  | mk ty d v lg ur cs =>
    simp [dcN] at h
    rcases h with ⟨h1, _⟩
    by_cases hp : p (.mk ty d v lg ur cs)
    · simp [hp] at h1
    · simpa using hp

theorem dcL_zero_mem (p : Node → Bool) (l : List Node) (h : dcL p l = 0) :
    ∀ m ∈ l, dcN p m = 0 := by
  induction l with
  | nil => simp
  | cons n rest ih =>
    intro m hm
    simp only [dcL] at h
    simp only [List.mem_cons] at hm
    rcases hm with h1 | h1
    · rw [h1]; omega
    · exact ih (by omega) m h1

/-- The headings recognised by the collapser visitor are also recognised
by its boundary scan (depth 2 is within maximum depth 2). -/
theorem boundary_of_headingTest2 (n : Node) (h : headingTest2 n = true) :
    boundaryTest n = true := by
  cases n with
  | mk ty d v lg ur cs =>
    simp only [headingTest2, boundaryTest, isHeading, Node.type, Node.depth, Node.value] at h ⊢
    by_cases h1 : ty = "heading"
    · subst h1
      simp at h ⊢
      omega
    · by_cases h2 : ty = "html"
      · subst h2
        simp at h ⊢
        cases hd : firstHeadingLineDepth v with
        | none => simp [hd] at h
        | some dd =>
          simp [hd] at h ⊢
          omega
      · simp [h1, h2] at h

/-- Counting monotonicity along a pointwise implication of tests. -/
theorem dcN_mono_zero (p q : Node → Bool) (hpq : ∀ m, p m = true → q m = true)
    (n : Node) (h : dcN q n = 0) : dcN p n = 0 := by
  induction n using Node.rec (motive_2 := fun l => dcL q l = 0 → dcL p l = 0) with
  | mk ty d v lg ur cs ih =>
    simp only [dcN] at h ⊢
    have h1 : q (.mk ty d v lg ur cs) = false := by
      by_cases hq : q (.mk ty d v lg ur cs)
      · simp [hq] at h
      · simpa using hq
    have h2 : p (.mk ty d v lg ur cs) = false := by
      by_cases hp : p (.mk ty d v lg ur cs)
      · rw [hpq _ hp] at h1; exact absurd h1 (by simp)
      · simpa using hp
    simp [h1] at h
    simp [h2, ih h]
  | nil => simp [dcL]
  | cons hd tl ih1 ih2 =>
    rename_i hh
    simp only [dcL] at hh ⊢
    have e1 := ih1 (by omega)
    have e2 := ih2 (by omega)
    omega

theorem dcL_mono_zero (p q : Node → Bool) (hpq : ∀ m, p m = true → q m = true)
    (l : List Node) (h : dcL q l = 0) : dcL p l = 0 := by
  induction l with
  | nil => simp [dcL]
  | cons n rest ih =>
    simp only [dcL] at h ⊢
    have e1 := dcN_mono_zero p q hpq n (by omega)
    have e2 := ih (by omega)
    omega

theorem headingTest2_openDetails : headingTest2 openDetails = false := by decide

theorem headingTest2_closeDetails : headingTest2 closeDetails = false := by decide

theorem boundaryTest_openDetails : boundaryTest openDetails = false := by decide

theorem boundaryTest_closeDetails : boundaryTest closeDetails = false := by decide

theorem dcN_openDetails : dcN headingTest2 openDetails = 0 := by decide

theorem dcN_closeDetails : dcN headingTest2 closeDetails = 0 := by decide

theorem lex_of_le_of_lt {a b c d : Nat} (h1 : a ≤ c) (h2 : a = c → b < d) :
    Prod.Lex (· < ·) (· < ·) (a, b) (c, d) := by
  rcases lt_or_eq_of_le h1 with h | h
  · exact Prod.Lex.left _ _ h
  · subst h
    exact Prod.Lex.right _ (h2 rfl)

/- Source `wrapOperationsWithDetails`: `visit(tree, isHeading(2), visitor)`.
At a matched node at index `i` the visitor computes
`offset = node.type === "heading" ? 2 : 1`, splices the opening marker at
`i + offset`, scans `children.slice(i + offset)` for the first node
matching `isHeading(2, true)` (falling back to the end of the children
list), splices the closing marker there, and returns nothing, so
traversal descends into the matched node's children and resumes at
`i + 1`.  The embedding reflects this exactly: the recursive call on the
rebuilt suffix starting at position `i + 1` (which for `offset = 2` still
begins with the not-yet-visited sibling `r0`, followed by the freshly
spliced opening marker) is the resumed traversal; the boundary scan at
`i + offset` starts at the just-inserted opening marker, which never
matches, so it reduces to a scan of the siblings after it. -/
mutual
def wrapNode : Node → Node
  | .mk ty d v lg ur cs => .mk ty d v lg ur (wrapL cs)
  termination_by n => (dcN headingTest2 n, sizeOf n)
  decreasing_by
    apply lex_of_le_of_lt
    · simp [dcN]
    · intro _
      simp
      try omega
def wrapL : List Node → List Node
  | [] => []
  | n :: rest =>
    if h : headingTest2 n then
      if n.type == "heading" then
        match rest with
        | [] => wrapNode n :: wrapL [openDetails, closeDetails]
        | r0 :: rr =>
          wrapNode n ::
            wrapL (r0 :: openDetails ::
              ((splitAtBoundary rr).1 ++ closeDetails :: (splitAtBoundary rr).2))
      else
        wrapNode n ::
          wrapL (openDetails ::
            ((splitAtBoundary rest).1 ++ closeDetails :: (splitAtBoundary rest).2))
    else
      wrapNode n :: wrapL rest
  termination_by l => (dcL headingTest2 l, sizeOf l)
  decreasing_by
  · apply lex_of_le_of_lt
    · simp [dcL]
    · intro _
      simp
      try omega
  · apply Prod.Lex.left
    have h1 := dcN_pos headingTest2 _ h
    simp [dcL, dcN_openDetails, dcN_closeDetails]
    omega
  · apply lex_of_le_of_lt
    · simp [dcL]
    · intro _
      simp
      try omega
  · apply Prod.Lex.left
    have h1 := dcN_pos headingTest2 _ h
    have h2 : dcL headingTest2 ((splitAtBoundary ns).1 ++ (splitAtBoundary ns).2) =
        dcL headingTest2 ns := by rw [splitAtBoundary_append]
    rw [dcL_append] at h2
    simp [dcL, dcL_append, dcN_openDetails, dcN_closeDetails]
    omega
  · apply lex_of_le_of_lt
    · simp [dcL]
    · intro _
      simp
      try omega
  · apply Prod.Lex.left
    have h1 := dcN_pos headingTest2 _ h
    have h2 : dcL headingTest2 ((splitAtBoundary ns).1 ++ (splitAtBoundary ns).2) =
        dcL headingTest2 ns := by rw [splitAtBoundary_append]
    rw [dcL_append] at h2
    simp [dcL, dcL_append, dcN_openDetails, dcN_closeDetails]
    omega
  · apply lex_of_le_of_lt
    · simp [dcL]
    · intro _
      simp
      try omega
  · apply lex_of_le_of_lt
    · simp [dcL]
    · intro _
      simp
      try omega
end

/-- Source `wrapOperationsWithDetails` applied to a document tree: the
root (type `root`) never matches `isHeading(2)`, so the stage is the
traversal of its children. -/
def wrapOperationsWithDetails (t : Node) : Node := wrapNode t

@[simp] theorem headingTest2_uText (s : String) : headingTest2 (uText s) = false := by
  simp [headingTest2, isHeading, uText, Node.type]

@[simp] theorem headingTest2_uParagraph (cs : List Node) :
    headingTest2 (uParagraph cs) = false := by
  simp [headingTest2, isHeading, uParagraph, Node.type]

@[simp] theorem headingTest2_uStrong (cs : List Node) :
    headingTest2 (uStrong cs) = false := by
  simp [headingTest2, isHeading, uStrong, Node.type]

@[simp] theorem headingTest2_uBlockquote (cs : List Node) :
    headingTest2 (uBlockquote cs) = false := by
  simp [headingTest2, isHeading, uBlockquote, Node.type]

@[simp] theorem headingTest2_uRoot (cs : List Node) :
    headingTest2 (uRoot cs) = false := by
  simp [headingTest2, isHeading, uRoot, Node.type]

@[simp] theorem headingTest2_uHeading (d : Nat) (cs : List Node) :
    headingTest2 (uHeading d cs) = (d == 2) := by
  simp [headingTest2, isHeading, uHeading, Node.type, Node.depth]

@[simp] theorem headingTest2_uHtml (s : String) :
    headingTest2 (uHtml s) =
      (match firstHeadingLineDepth s with
       | some d => d == 2
       | none => false) := by
  simp only [headingTest2, isHeading, uHtml, Node.type, Node.value]
  rcases firstHeadingLineDepth s with _ | d
  · simp
  · rcases d with _ | _ | _ | d <;> simp

@[simp] theorem boundaryTest_uText (s : String) : boundaryTest (uText s) = false := by
  simp [boundaryTest, isHeading, uText, Node.type]

@[simp] theorem boundaryTest_uParagraph (cs : List Node) :
    boundaryTest (uParagraph cs) = false := by
  simp [boundaryTest, isHeading, uParagraph, Node.type]

@[simp] theorem boundaryTest_uStrong (cs : List Node) :
    boundaryTest (uStrong cs) = false := by
  simp [boundaryTest, isHeading, uStrong, Node.type]

@[simp] theorem boundaryTest_uBlockquote (cs : List Node) :
    boundaryTest (uBlockquote cs) = false := by
  simp [boundaryTest, isHeading, uBlockquote, Node.type]

@[simp] theorem boundaryTest_uHeading (d : Nat) (cs : List Node) :
    boundaryTest (uHeading d cs) = decide (d ≤ 2) := by
  simp [boundaryTest, isHeading, uHeading, Node.type, Node.depth]

@[simp] theorem boundaryTest_uHtml (s : String) :
    boundaryTest (uHtml s) =
      (match firstHeadingLineDepth s with
       | some d => decide (d ≤ 2)
       | none => false) := by
  simp only [boundaryTest, isHeading, uHtml, Node.type, Node.value]
  rcases firstHeadingLineDepth s with _ | d
  · simp
  · rcases d with _ | _ | _ | d <;> simp

@[simp] theorem notifierTest_uText (s : String) : notifierTest (uText s) = false := by
  simp [notifierTest, uText, Node.type]

@[simp] theorem notifierTest_uHtml (s : String) : notifierTest (uHtml s) = false := by
  simp [notifierTest, uHtml, Node.type]

@[simp] theorem notifierTest_uParagraph (cs : List Node) :
    notifierTest (uParagraph cs) = false := by
  simp [notifierTest, uParagraph, Node.type]

@[simp] theorem notifierTest_uStrong (cs : List Node) :
    notifierTest (uStrong cs) = false := by
  simp [notifierTest, uStrong, Node.type]

@[simp] theorem notifierTest_uBlockquote (cs : List Node) :
    notifierTest (uBlockquote cs) = false := by
  simp [notifierTest, uBlockquote, Node.type]

@[simp] theorem notifierTest_uHeading (d : Nat) (cs : List Node) :
    notifierTest (uHeading d cs) = (d == 2) := by
  simp [notifierTest, uHeading, Node.type, Node.depth]

@[simp] theorem headingTest2_mk (ty : String) (d : Nat) (v lg ur : String) (cs : List Node) :
    headingTest2 (.mk ty d v lg ur cs) =
      (if ty == "heading" then d == 2
       else if ty == "html" then
         match firstHeadingLineDepth v with
         | some dd => dd == 2
         | none => false
       else false) := by
  simp only [headingTest2, isHeading, Node.type, Node.depth, Node.value]
  by_cases h1 : ty = "heading"
  · subst h1; simp
  · by_cases h2 : ty = "html"
    · subst h2
      simp
    · simp [h1, h2]

@[simp] theorem boundaryTest_mk (ty : String) (d : Nat) (v lg ur : String) (cs : List Node) :
    boundaryTest (.mk ty d v lg ur cs) =
      (if ty == "heading" then decide (d ≤ 2)
       else if ty == "html" then
         match firstHeadingLineDepth v with
         | some dd => decide (dd ≤ 2)
         | none => false
       else false) := by
  simp only [boundaryTest, isHeading, Node.type, Node.depth, Node.value]
  by_cases h1 : ty = "heading"
  · subst h1; simp
  · by_cases h2 : ty = "html"
    · subst h2
      simp
    · simp [h1, h2]

@[simp] theorem notifierTest_mk (ty : String) (d : Nat) (v lg ur : String) (cs : List Node) :
    notifierTest (.mk ty d v lg ur cs) = (ty == "heading" && d == 2) := by
  simp [notifierTest, Node.type, Node.depth]

/-- One route of a specification document: the ordered methods with the
`operationId` carried by each operation descriptor (the only operation
field the pipeline reads). -/
abbrev SpecMethods := List (String × String)

/-- A specification document: ordered `paths` entries (route, methods). -/
structure Spec where
  paths : List (String × SpecMethods)

/-- Source `getOperationLocation`: scans the documents, then the routes,
then the methods in order, returning the dotted path
`["paths", route, method].join(".")` of the first operation carrying the
identifier; absent (`undefined`) when no operation matches. -/
def getOperationLocation (specs : List Spec) (operationId : String) : Option String :=
  specs.findSome? fun spec =>
    spec.paths.findSome? fun routeOps =>
      routeOps.2.findSome? fun methodOp =>
        if methodOp.2 == operationId then
          some (String.intercalate "." ["paths", routeOps.1, methodOp.1])
        else
          none

/-- A diff entity location: a dotted path into a spec document. -/
structure DiffEntityLocation where
  location : String

/-- A classified diff result with its source-side and destination-side
entity locations. -/
structure DiffResult where
  sourceSpecEntityDetails : List DiffEntityLocation
  destinationSpecEntityDetails : List DiffEntityLocation

/-- The outcome of the diff engine.  A `*Differences` collection may be
absent (`undefined` in the source). -/
structure DiffOutcome where
  breakingDifferencesFound : Bool
  breakingDifferences : Option (List DiffResult)
  nonBreakingDifferences : Option (List DiffResult)
  unclassifiedDifferences : Option (List DiffResult)

/-- Source `findMatchingDifference`: absent collection means no match;
otherwise some diff must have an entry, on either side, whose `location`
starts with the candidate operation location. -/
def findMatchingDifference (diffs : Option (List DiffResult))
    (operationLocation : String) : Bool :=
  match diffs with
  | none => false
  | some ds =>
    ds.any fun diff =>
      diff.sourceSpecEntityDetails.any
        (fun e => jsStartsWith e.location operationLocation) ||
      diff.destinationSpecEntityDetails.any
        (fun e => jsStartsWith e.location operationLocation)

/-- The greedy capture of `/"opId(.*)"/` once `"opId` has been consumed:
`.` does not cross a line terminator, and the greedy `(.*)"` captures up
to the last `"` on the line; no `"` on the line means no match at this
start position. -/
def greedyQuoteCapture (cs : List Char) : Option (List Char) :=
  match (cs.takeWhile fun c => c ≠ '\n').reverse.dropWhile fun c => c ≠ '"' with
  | [] => none
  | _ :: tl => some tl.reverse

/-- Leftmost-match scan of `value.match(/"opId(.*)"/)`: try each position
where `"opId` occurs, in order, and take the first with a closing `"` on
the same line. -/
def opIdScan : List Char → Option (List Char)
  | [] => none
  | c :: cs =>
    if c = '"' && "opId".data.isPrefixOf cs then
      match greedyQuoteCapture (cs.drop 4) with
      | some cap => some cap
      | none => opIdScan cs
    else
      opIdScan cs

/-- Capture group 1 of `value.match(/"opId(.*)"/)`; `none` models a `null`
match result, which the source then indexes, raising a `TypeError`. -/
def extractOpId (s : String) : Option String :=
  (opIdScan s.data).map fun cs => ⟨cs⟩

/-- Source `createNotifierNode(message, emoji)`. -/
def createNotifierNode (message : String) (emoji : String) : Node :=
  uParagraph
    [uText (emoji ++ " "),
     uStrong [uText message],
     uText (" " ++ emoji)]

/-- The breaking-changes notifier paragraph. -/
def breakingNotifier : Node := createNotifierNode "BREAKING CHANGES" "🚨"

/-- The non-breaking changes notifier paragraph. -/
def changesNotifier : Node := createNotifierNode "CHANGES" "⚠"

theorem dcN_createNotifierNode (message emoji : String) :
    dcN notifierTest (createNotifierNode message emoji) = 0 := by
  simp [createNotifierNode, uParagraph, uText, uStrong, dcN, dcL, notifierTest, Node.type]

/-- The `TypeError` raised when a second-level heading has no following
sibling (`parent.children[index + 1]` is `undefined`). -/
def errNoSibling : String := "TypeError: cannot read children of undefined"

/-- The `TypeError` raised when the following sibling has no first child
(`children[0]` is `undefined`, then `.value` is read). -/
def errNoIdNode : String := "TypeError: cannot read value of undefined"

/-- The `TypeError` raised when `/"opId(.*)"/` does not match: the `null`
match result is indexed with `[1]`. -/
def errNoOpId : String := "TypeError: cannot read 1 of null"

/- Source `insertChangeNotifier(specs, specsDiff)`:
`visit(tree, --type: "heading", depth: 2--, visitor)`.  At a matched node
at index `i` the visitor reads `parent.children[i + 1].children[0]`,
extracts the operation id with `/"opId(.*)"/` (each failed access raises
a `TypeError` that aborts the stage), resolves the dotted location (an
unresolved id flows into `String.startsWith(undefined)`, which coerces
the argument to the string `"undefined"`), and picks the notifier by
priority: breaking differences (guarded by `breakingDifferencesFound`),
else non-breaking or unclassified.  If a notifier is produced it is
spliced at `i + 1` and the visitor returns `[visit.SKIP, i + 1]`: the
matched heading's children are not descended into and traversal resumes
at the freshly inserted notifier node.  Otherwise the visitor returns
nothing: the heading's children are descended into and traversal resumes
at `i + 1`. -/
mutual
def insertNode (specs : List Spec) (specsDiff : DiffOutcome) :
    Node → Except String Node
  | .mk ty d v lg ur cs => do
    let cs2 ← insertL specs specsDiff cs
    pure (.mk ty d v lg ur cs2)
  termination_by n => (dcN notifierTest n, sizeOf n)
  decreasing_by
    apply lex_of_le_of_lt
    · simp [dcN]
    · intro _
      simp
      try omega
def insertL (specs : List Spec) (specsDiff : DiffOutcome) :
    List Node → Except String (List Node)
  | [] => pure []
  | n :: rest =>
    if h : notifierTest n then
      match hr : rest with
      | [] => throw errNoSibling
      | r0 :: rr =>
        match r0.children with
        | [] => throw errNoIdNode
        | idNode :: _ =>
          match extractOpId idNode.value with
          | none => throw errNoOpId
          | some operationId =>
            let operationLocation :=
              (getOperationLocation specs operationId).getD "undefined"
            if specsDiff.breakingDifferencesFound &&
                findMatchingDifference specsDiff.breakingDifferences
                  operationLocation then do
              let out ← insertL specs specsDiff
                (createNotifierNode "BREAKING CHANGES" "🚨" :: rest)
              pure (n :: out)
            else if findMatchingDifference specsDiff.nonBreakingDifferences
                  operationLocation ||
                findMatchingDifference specsDiff.unclassifiedDifferences
                  operationLocation then do
              let out ← insertL specs specsDiff
                (createNotifierNode "CHANGES" "⚠" :: rest)
              pure (n :: out)
            else do
              let n2 ← insertNode specs specsDiff n
              let rest2 ← insertL specs specsDiff rest
              pure (n2 :: rest2)
    else do
      let n2 ← insertNode specs specsDiff n
      let rest2 ← insertL specs specsDiff rest
      pure (n2 :: rest2)
  termination_by l => (dcL notifierTest l, sizeOf l)
  decreasing_by
  · apply Prod.Lex.left
    have h1 := dcN_pos notifierTest _ h
    simp [hr, dcL, dcN_createNotifierNode]
    omega
  · apply Prod.Lex.left
    have h1 := dcN_pos notifierTest _ h
    simp [hr, dcL, dcN_createNotifierNode]
    omega
  · apply lex_of_le_of_lt
    · simp [dcL]
    · intro _
      simp
      try omega
  · apply lex_of_le_of_lt
    · rw [hr]
      simp [dcL]
    · intro _
      rw [hr]
      simp
      try omega
  · apply lex_of_le_of_lt
    · simp [dcL]
    · intro _
      simp
      try omega
  · apply lex_of_le_of_lt
    · simp [dcL]
    · intro _
      simp
      try omega
end

/-- Source `insertChangeNotifier` applied to a document tree: the root
node (type `root`) never matches the heading test, so the stage is the
traversal of its children. -/
def insertChangeNotifier (specs : List Spec) (specsDiff : DiffOutcome)
    (t : Node) : Except String Node :=
  insertNode specs specsDiff t

/- Structural pass of `incrementHeadingDepth`:
`visit(tree, --type: "heading"--, node => node.depth++)` increments the
depth of every heading node, at any level. -/
mutual
def incDepthsNode : Node → Node
  | .mk ty d v lg ur cs =>
    .mk ty (if ty == "heading" then d + 1 else d) v lg ur (incDepthsL cs)
def incDepthsL : List Node → List Node
  | [] => []
  | n :: ns => incDepthsNode n :: incDepthsL ns
end

/-- Modelled from the spec: one top-level element of an embedded markup
fragment as produced by the external `tsxml` parser, reduced to the data
the stage reads and writes — its `tagName` and its inner content. -/
structure MarkupElem where
  tagName : String
  inner : String
deriving DecidableEq

/-- Modelled from the spec: scans for the closing tag `</tagName>`,
returning the inner content and the remainder after the closing tag. -/
def findCloseTag (tag : List Char) : List Char → Option (List Char × List Char)
  | [] => none
  | c :: cs =>
    if c = '<' && ('/' :: tag ++ ['>']).isPrefixOf cs then
      some ([], cs.drop (tag.length + 2))
    else
      (findCloseTag tag cs).map fun p => (c :: p.1, p.2)

theorem findCloseTag_length (tag : List Char) (l : List Char) (inner rest : List Char)
    (h : findCloseTag tag l = some (inner, rest)) : rest.length ≤ l.length := by
  induction l generalizing inner with
  | nil => simp [findCloseTag] at h
  | cons c cs ih =>
    simp only [findCloseTag] at h
    split at h
    · simp at h
      rcases h with ⟨h1, h2⟩
      rw [← h2]
      simp
      omega
    · cases hf : findCloseTag tag cs with
      | none => rw [hf] at h; simp at h
      | some p =>
        rw [hf] at h
        simp at h
        rcases h with ⟨h1, h2⟩
        have := ih p.1 (by rw [hf, ← h2])
        simp at this ⊢
        omega

/-- Modelled from the spec: the external `tsxml` fragment parser, on the
sub-language of whitespace-separated `<tag>inner</tag>` elements; any
input outside this shape fails to parse (`none`), modelling a parse
rejection that the stage swallows.  The fuel argument only bounds the
recursion; `parseMarkup` supplies one unit per input character, which the
step structure (each step consumes at least one character) makes
sufficient. -/
def parseMarkupFuel : Nat → List Char → Option (List MarkupElem)
  | _, [] => some []
  | 0, _ :: _ => none
  | fuel + 1, c :: cs =>
    if c = '<' then
      match cs.dropWhile fun ch => ch ≠ '>' with
      | [] => none
      | _ :: afterOpen =>
        let tag := cs.takeWhile fun ch => ch ≠ '>'
        if tag.isEmpty then none
        else
          match findCloseTag tag afterOpen with
          | none => none
          | some (inner, remainder) => do
            let es ← parseMarkupFuel fuel remainder
            pure (⟨⟨tag⟩, ⟨inner⟩⟩ :: es)
    else if c.isWhitespace then
      parseMarkupFuel fuel cs
    else
      none

/-- Modelled from the spec: the `tsxml` parse of a raw markup value. -/
def parseMarkup (s : String) : Option (List MarkupElem) :=
  parseMarkupFuel s.data.length s.data

/-- Source tag test `tagName.match(/^h(\d)$/)`: exactly `h` followed by a
single digit. -/
def tagHeadingDepth (tag : String) : Option Nat :=
  match tag.data with
  | ['h', c] => if c.isDigit then some (c.toNat - '0'.toNat) else none
  | _ => none

/-- The rewrite applied to each parsed element: `h<d>` becomes `h<d+1>`,
anything else is untouched. -/
def bumpElem (e : MarkupElem) : MarkupElem :=
  match tagHeadingDepth e.tagName with
  | some d => ⟨"h" ++ toString (d + 1), e.inner⟩
  | none => e

/-- Modelled from the spec: re-serialization (`toFormattedString`) of a
parsed fragment as the concatenation of its rendered elements. -/
def serializeMarkup : List MarkupElem → String
  | [] => ""
  | e :: es =>
    "<" ++ e.tagName ++ ">" ++ e.inner ++ "</" ++ e.tagName ++ ">" ++ serializeMarkup es

/-- Per-node markup pass of `incrementHeadingDepth`: parse the `html`
value, rewrite every `h<d>` tag, and re-serialize only if some tag was
rewritten; a parse failure is swallowed and the value kept as is. -/
def bumpHtmlValue (v : String) : String :=
  match parseMarkup v with
  | none => v
  | some es =>
    if es.any fun e => (tagHeadingDepth e.tagName).isSome then
      serializeMarkup (es.map bumpElem)
    else
      v

/- Markup pass of `incrementHeadingDepth` over the tree: every `html`
node's value is rewritten by `bumpHtmlValue`; all the per-node promises
settle independently and the stage waits for all of them, so the final
tree state is the pointwise rewrite. -/
mutual
def bumpHtmlsNode : Node → Node
  | .mk ty d v lg ur cs =>
    .mk ty d (if ty == "html" then bumpHtmlValue v else v) lg ur (bumpHtmlsL cs)
def bumpHtmlsL : List Node → List Node
  | [] => []
  | n :: ns => bumpHtmlsNode n :: bumpHtmlsL ns
end

/-- Source `incrementHeadingDepth`: the synchronous heading-depth pass,
then the markup pass whose per-node rewrites are joined with
`Promise.allSettled` (individual failures swallowed inside
`bumpHtmlValue`). -/
def incrementHeadingDepth (t : Node) : Node := bumpHtmlsNode (incDepthsNode t)

/-- Modelled: `JSON.stringify` of the diff outcome embedded in the header
code block.  Only the fact that some string is embedded matters to the
claims; the serialization is a straightforward rendering. -/
def jsonOfLocations (ls : List DiffEntityLocation) : String :=
  "[" ++ String.intercalate "," (ls.map fun e => "\x7b\x22location\x22:\x22" ++ e.location ++ "\x22\x7d") ++ "]"

/-- Modelled: serialization of one diff result. -/
def jsonOfDiff (d : DiffResult) : String :=
  "\x7b\x22sourceSpecEntityDetails\x22:" ++ jsonOfLocations d.sourceSpecEntityDetails ++
    ",\x22destinationSpecEntityDetails\x22:" ++ jsonOfLocations d.destinationSpecEntityDetails ++ "\x7d"

/-- Modelled: serialization of an optional diff collection (`undefined`
keys are dropped by `JSON.stringify`). -/
def jsonOfDiffs (ds : Option (List DiffResult)) : String :=
  match ds with
  | none => ""
  | some l => "[" ++ String.intercalate "," (l.map jsonOfDiff) ++ "]"

/-- Modelled: `JSON.stringify(specsDiff, null, 2)`. -/
def specsDiffJson (d : DiffOutcome) : String :=
  "\x7b\x22breakingDifferencesFound\x22:" ++
    (if d.breakingDifferencesFound then "true" else "false") ++
    ",\x22breakingDifferences\x22:" ++ jsonOfDiffs d.breakingDifferences ++
    ",\x22nonBreakingDifferences\x22:" ++ jsonOfDiffs d.nonBreakingDifferences ++
    ",\x22unclassifiedDifferences\x22:" ++ jsonOfDiffs d.unclassifiedDifferences ++ "\x7d"

/-- The fixed documentation URL used by the classification table links. -/
def openapiDiffDocsUrl : String := "https://www.npmjs.com/package/openapi-diff"

/-- The header node sequence built by `insertHeader` once the three
classification counts are known: title, spec path blockquote, diff
heading, diff credit, optional breaking banner, classification table,
collapsible raw diff payload, docs heading, docs credit — in exactly the
source push order.  Each count cell is `u("text", count)`, a text node
whose value serializes as the decimal count. -/
def headerNodes (specPath : String) (specsDiff : DiffOutcome)
    (breakingCount nonBreakingCount unclassifiedCount : Nat) : List Node :=
  [uHeading 1 [uText "OpenAPI Review"],
   uBlockquote [uStrong [uText ("Spec: " ++ specPath)]],
   uHeading 2 [uText "OpenAPI Diff"],
   uBlockquote [uParagraph
     [uText "⚡ Powered by ",
      uLink "https://bitbucket.org/atlassian/openapi-diff" [uText "openapi-diff"]]]] ++
  (if specsDiff.breakingDifferencesFound then
    [uParagraph
      [uText "🚨 ", uStrong [uText "BREAKING CHANGES"], uText " 🚨"]]
   else []) ++
  [uTable
    (uTableRow [uTableCell [uText "Change Classification"], uTableCell [uText "Count"]] ::
      ([("Breaking", breakingCount), ("Non-breaking", nonBreakingCount),
        ("Unclassified", unclassifiedCount)].map fun classification =>
        uTableRow
          [uTableCell
            [uLink (openapiDiffDocsUrl ++ "#" ++ classification.1.toLower)
              [uText classification.1]],
           uTableCell [uText (toString classification.2)]])),
   uHtml "<details>\n<summary>Diff</summary>",
   uCode "json" (specsDiffJson specsDiff),
   uHtml "</details>",
   uHeading 2 [uText "OpenAPI Docs"],
   uBlockquote [uParagraph
     [uText "⚡ Powered by ",
      uLink "https://github.com/Mermade/widdershins" [uText "widdershins"]]]]

/-- The `TypeError` raised by `specsDiff.breakingDifferences.length` when
the flag is set but the collection is absent. -/
def errNoBreakingArray : String := "TypeError: cannot read length of undefined"

/-- Source `insertHeader(specPath, specsDiff)`: computes the three
classification counts — the breaking count is keyed on the
`breakingDifferencesFound` flag (reading `.length` of an absent
collection raises), the other two on presence of their collection — and
unshifts the header nodes onto the root's children. -/
def insertHeader (specPath : String) (specsDiff : DiffOutcome) (t : Node) :
    Except String Node := do
  let breakingCount ←
    if specsDiff.breakingDifferencesFound then
      match specsDiff.breakingDifferences with
      | some bs => pure bs.length
      | none => throw errNoBreakingArray
    else
      pure 0
  let nonBreakingCount :=
    match specsDiff.nonBreakingDifferences with
    | some l => l.length
    | none => 0
  let unclassifiedCount :=
    match specsDiff.unclassifiedDifferences with
    | some l => l.length
    | none => 0
  match t with
  | .mk ty d v lg ur cs =>
    pure (.mk ty d v lg ur
      (headerNodes specPath specsDiff breakingCount nonBreakingCount unclassifiedCount ++ cs))

/-- Source `process(contents, specs, specsDiff, specPath)` at the tree
level: remark parsing and serialization are external; the plugin order is
`removeUnwantedNodes`, `wrapOperationsWithDetails`, `insertChangeNotifier`,
`incrementHeadingDepth`, `insertHeader`. -/
def processTree (specs : List Spec) (specsDiff : DiffOutcome) (specPath : String)
    (t : Node) : Except String Node := do
  let t1 := removeUnwantedNodes t
  let t2 := wrapOperationsWithDetails t1
  let t3 ← insertChangeNotifier specs specsDiff t2
  let t4 := incrementHeadingDepth t3
  insertHeader specPath specsDiff t4

/- Structural boolean equality of nodes, for decidability of tree
equalities. -/
mutual
def nodeBEq : Node → Node → Bool
  | .mk t1 d1 v1 l1 u1 c1, .mk t2 d2 v2 l2 u2 c2 =>
    t1 == t2 && d1 == d2 && v1 == v2 && l1 == l2 && u1 == u2 && nodesBEq c1 c2
def nodesBEq : List Node → List Node → Bool
  | [], [] => true
  | n :: ns, m :: ms => nodeBEq n m && nodesBEq ns ms
  | [], _ :: _ => false
  | _ :: _, [] => false
end

theorem nodeBEq_iff (a : Node) : ∀ b, nodeBEq a b = true ↔ a = b := by
  induction a using Node.rec
      (motive_2 := fun l => ∀ m, nodesBEq l m = true ↔ l = m) with
  | mk ty d v lg ur cs ih =>
    intro b
    cases b with
    | mk ty2 d2 v2 lg2 ur2 cs2 =>
      simp [nodeBEq, Node.mk.injEq, ih cs2]
      tauto
  | nil =>
    rename_i m
    cases m with
    | nil => simp [nodesBEq]
    | cons a l =>
      rw [nodesBEq]
      simp
  | cons hd tl ih1 ih2 =>
    rename_i m
    cases m with
    | nil => simp [nodesBEq]
    | cons hd2 tl2 => simp [nodesBEq, ih1 hd2, ih2 tl2]

instance : DecidableEq Node := fun a b => decidable_of_iff _ (nodeBEq_iff a b)

/-- The exact breaking-marker paragraph produced by
`createNotifierNode("BREAKING CHANGES", "🚨")`. -/
def isBreakingMarker (n : Node) : Bool := nodeBEq n breakingNotifier

/- Whether a subtree contains a breaking-marker paragraph. -/
mutual
def containsBreakingMarkerN : Node → Bool
  | .mk ty d v lg ur cs =>
    isBreakingMarker (.mk ty d v lg ur cs) || containsBreakingMarkerL cs
def containsBreakingMarkerL : List Node → Bool
  | [] => false
  | n :: ns => containsBreakingMarkerN n || containsBreakingMarkerL ns
end

/- Whether a subtree contains a text node whose value is the literal
`"BREAKING CHANGES"`. -/
mutual
def containsBreakingTextN : Node → Bool
  | .mk ty _ v _ _ cs =>
    (ty == "text" && v == "BREAKING CHANGES") || containsBreakingTextL cs
def containsBreakingTextL : List Node → Bool
  | [] => false
  | n :: ns => containsBreakingTextN n || containsBreakingTextL ns
end

/- The preorder list of heading depths of a tree. -/
mutual
def headingDepthsN : Node → List Nat
  | .mk ty d _ _ _ cs => (if ty == "heading" then [d] else []) ++ headingDepthsL cs
def headingDepthsL : List Node → List Nat
  | [] => []
  | n :: ns => headingDepthsN n ++ headingDepthsL ns
end

/-- A subtree without collapser-visitor matches is left untouched by the
Section Collapser traversal. -/
theorem wrapNode_id (n : Node) (h : dcN headingTest2 n = 0) : wrapNode n = n := by
  induction n using Node.rec (motive_2 := fun l => dcL headingTest2 l = 0 → wrapL l = l) with
  | mk ty d v lg ur cs ih =>
    simp only [dcN] at h
    have h2 : dcL headingTest2 cs = 0 := by omega
    simp only [wrapNode]
    rw [ih h2]
  | nil =>
    simp [wrapL]
  | cons hd tl ih1 ih2 =>
    rename_i hh
    simp only [dcL] at hh
    have h1 : headingTest2 hd = false := dcN_zero_not _ _ (by omega)
    rw [wrapL.eq_def]
    simp [h1, ih1 (by omega), ih2 (by omega)]

theorem wrapL_id (l : List Node) (h : dcL headingTest2 l = 0) : wrapL l = l := by
  induction l with
  | nil => simp [wrapL]
  | cons hd tl ih =>
    simp only [dcL] at h
    have h1 : headingTest2 hd = false := dcN_zero_not _ _ (by omega)
    rw [wrapL.eq_def]
    simp [h1, wrapNode_id hd (by omega), ih (by omega)]

/-- A subtree without notifier-visitor matches is left untouched by the
Change Notifier traversal. -/
theorem insertNode_id (specs : List Spec) (specsDiff : DiffOutcome) (n : Node)
    (h : dcN notifierTest n = 0) : insertNode specs specsDiff n = .ok n := by
  induction n using Node.rec
      (motive_2 := fun l => dcL notifierTest l = 0 → insertL specs specsDiff l = .ok l) with
  | mk ty d v lg ur cs ih =>
    simp only [dcN] at h
    have h2 : dcL notifierTest cs = 0 := by omega
    simp only [insertNode]
    rw [ih h2]
    rfl
  | nil =>
    simp [insertL]
    rfl
  | cons hd tl ih1 ih2 =>
    rename_i hh
    simp only [dcL] at hh
    have h1 : notifierTest hd = false := dcN_zero_not _ _ (by omega)
    rw [insertL.eq_def]
    simp [h1, ih1 (by omega), ih2 (by omega)]
    rfl

theorem insertL_id (specs : List Spec) (specsDiff : DiffOutcome) (l : List Node)
    (h : dcL notifierTest l = 0) : insertL specs specsDiff l = .ok l := by
  induction l with
  | nil => simp [insertL]; rfl
  | cons hd tl ih =>
    simp only [dcL] at h
    have h1 : notifierTest hd = false := dcN_zero_not _ _ (by omega)
    rw [insertL.eq_def]
    simp [h1, insertNode_id specs specsDiff hd (by omega), ih (by omega)]
    rfl

/-- JavaScript `startsWith` agrees with string-prefix decomposition. -/
theorem jsStartsWith_iff (s p : String) :
    jsStartsWith s p = true ↔ ∃ t : String, s = p ++ t := by
  rw [jsStartsWith, List.isPrefixOf_iff_prefix]
  constructor
  · rintro ⟨w, hw⟩
    refine ⟨⟨w⟩, String.ext ?_⟩
    rw [← hw]
    rfl
  · rintro ⟨t, rfl⟩
    exact ⟨t.data, rfl⟩

/-- C3: the Diff Correlator returns no-match on an absent collection, and
otherwise matches exactly when some diff result has an entry, in either
its source-side or destination-side location list, whose location has the
candidate dotted path as a string prefix; in particular the candidate
`paths./pets.get` matches the location `paths./pets.get.responses.200`
and not `paths./pets.post`. -/
theorem C3_findMatchingDifference_prefix_correlation :
    (∀ p : String, findMatchingDifference none p = false) ∧
    (∀ (ds : List DiffResult) (p : String),
      findMatchingDifference (some ds) p = true ↔
        ∃ d ∈ ds,
          (∃ e ∈ d.sourceSpecEntityDetails, ∃ t : String, e.location = p ++ t) ∨
          (∃ e ∈ d.destinationSpecEntityDetails, ∃ t : String, e.location = p ++ t)) ∧
    findMatchingDifference
      (some [⟨[⟨"paths./pets.get.responses.200"⟩], []⟩]) "paths./pets.get" = true ∧
    findMatchingDifference
      (some [⟨[⟨"paths./pets.post"⟩], []⟩]) "paths./pets.get" = false := by
  refine ⟨fun p => rfl, fun ds p => ?_, by decide, by decide⟩
  simp [findMatchingDifference, List.any_eq_true, jsStartsWith_iff]

theorem splitAtBoundary_of_dcL_zero (l : List Node) (h : dcL boundaryTest l = 0) :
    splitAtBoundary l = (l, []) := by
  induction l with
  | nil => simp [splitAtBoundary]
  | cons n rest ih =>
    simp only [dcL] at h
    have h1 : boundaryTest n = false := dcN_zero_not _ _ (by omega)
    simp [splitAtBoundary, h1, ih (by omega)]

theorem splitAtBoundary_append_first (body : List Node)
    (hbody : dcL boundaryTest body = 0) (x : Node) (hx : boundaryTest x = true)
    (rest2 : List Node) :
    splitAtBoundary (body ++ x :: rest2) = (body, x :: rest2) := by
  induction body with
  | nil => simp [splitAtBoundary, hx]
  | cons n bs ih =>
    simp only [dcL] at hbody
    have h1 : boundaryTest n = false := dcN_zero_not _ _ (by omega)
    simp [splitAtBoundary, h1, ih (by omega)]

/-- The collapser traversal walks over a run of match-free siblings
unchanged. -/
theorem wrapL_skip (body tail : List Node) (h : dcL headingTest2 body = 0) :
    wrapL (body ++ tail) = body ++ wrapL tail := by
  induction body with
  | nil => simp
  | cons n bs ih =>
    simp only [dcL] at h
    have h1 : headingTest2 n = false := dcN_zero_not _ _ (by omega)
    rw [List.cons_append, wrapL.eq_def]
    simp [h1, wrapNode_id n (by omega), ih (by omega)]

/-- C10: the collapser's opening-marker offset depends on the heading's
representation: after a structural depth-2 heading the opening marker is
spliced two positions later (after the operation-id sibling), while after
a depth-2 heading embedded in a raw-markup (`html`) node it is spliced
only one position later, skipping no sibling. -/
theorem C10_opening_marker_offset :
    (∀ (hv hlg hur : String) (hcs : List Node) (r0 : Node) (rest : List Node),
      dcN boundaryTest r0 = 0 → dcL boundaryTest rest = 0 →
      wrapL (Node.mk "heading" 2 hv hlg hur hcs :: r0 :: rest) =
        wrapNode (Node.mk "heading" 2 hv hlg hur hcs) :: r0 ::
          openDetails :: rest ++ [closeDetails]) ∧
    (∀ (d : Nat) (hv hlg hur : String) (hcs : List Node) (rest : List Node),
      firstHeadingLineDepth hv = some 2 → dcL boundaryTest rest = 0 →
      wrapL (Node.mk "html" d hv hlg hur hcs :: rest) =
        wrapNode (Node.mk "html" d hv hlg hur hcs) ::
          openDetails :: rest ++ [closeDetails]) := by
  constructor
  · intro hv hlg hur hcs r0 rest hr0 hrest
    have hr0m : dcN headingTest2 r0 = 0 :=
      dcN_mono_zero _ _ boundary_of_headingTest2 r0 hr0
    have hrestm : dcL headingTest2 rest = 0 :=
      dcL_mono_zero _ _ boundary_of_headingTest2 rest hrest
    have ht : headingTest2 (Node.mk "heading" 2 hv hlg hur hcs) = true := by simp
    rw [wrapL.eq_def]
    simp only [ht, Node.type, splitAtBoundary_of_dcL_zero rest hrest]
    have hwid : wrapL (r0 :: openDetails :: (rest ++ [closeDetails])) =
        r0 :: openDetails :: (rest ++ [closeDetails]) :=
      wrapL_id _ (by simp [dcL, hr0m, dcN_openDetails, dcL_append, hrestm, dcN_closeDetails])
    simp [hwid]
  · intro d hv hlg hur hcs rest hfh hrest
    have hrestm : dcL headingTest2 rest = 0 :=
      dcL_mono_zero _ _ boundary_of_headingTest2 rest hrest
    have ht : headingTest2 (Node.mk "html" d hv hlg hur hcs) = true := by
      simp [hfh]
    rw [wrapL.eq_def]
    simp only [ht, Node.type, splitAtBoundary_of_dcL_zero rest hrest]
    have hwid : wrapL (openDetails :: (rest ++ [closeDetails])) =
        openDetails :: (rest ++ [closeDetails]) :=
      wrapL_id _ (by simp [dcL, dcN_openDetails, dcL_append, hrestm, dcN_closeDetails])
    simp [hwid]

/-- Concrete instantiation of the two marker-offset cases. -/
theorem C10_opening_marker_offset_witness :
    wrapL [Node.mk "heading" 2 "" "" "" [uText "Create Pet"], uParagraph [uHtml "anchor"]] =
      wrapNode (Node.mk "heading" 2 "" "" "" [uText "Create Pet"]) ::
        uParagraph [uHtml "anchor"] :: openDetails :: [] ++ [closeDetails] ∧
    wrapL [Node.mk "html" 0 "<h2 id=x>T</h2>" "" "" []] =
      wrapNode (Node.mk "html" 0 "<h2 id=x>T</h2>" "" "" []) ::
        openDetails :: [] ++ [closeDetails] := by
  constructor
  · exact C10_opening_marker_offset.1 "" "" "" [uText "Create Pet"]
      (uParagraph [uHtml "anchor"]) [] (by decide) (by decide)
  · exact C10_opening_marker_offset.2 0 "<h2 id=x>T</h2>" "" "" [] [] (by decide) (by decide)

/-- One collapser step on a structural depth-2 heading section that is
closed by a following boundary node `x`: the opening marker lands two
positions after the heading and the closing marker right before `x`. -/
theorem wrapL_structural_section_until (v lg ur : String) (hcs : List Node)
    (r0 : Node) (body : List Node) (x : Node) (rest2 : List Node)
    (hr0 : dcN boundaryTest r0 = 0) (hbody : dcL boundaryTest body = 0)
    (hx : boundaryTest x = true) :
    wrapL (Node.mk "heading" 2 v lg ur hcs :: r0 :: (body ++ x :: rest2)) =
      wrapNode (Node.mk "heading" 2 v lg ur hcs) :: r0 :: openDetails ::
        body ++ closeDetails :: wrapL (x :: rest2) := by
  have hr0m : dcN headingTest2 r0 = 0 :=
    dcN_mono_zero _ _ boundary_of_headingTest2 r0 hr0
  have hbodym : dcL headingTest2 body = 0 :=
    dcL_mono_zero _ _ boundary_of_headingTest2 body hbody
  have ht : headingTest2 (Node.mk "heading" 2 v lg ur hcs) = true := by simp
  rw [wrapL.eq_def]
  simp only [ht, Node.type, splitAtBoundary_append_first body hbody x hx rest2]
  have hpre : dcL headingTest2 (r0 :: openDetails :: body ++ [closeDetails]) = 0 := by
    simp [dcL, dcL_append, hr0m, dcN_openDetails, hbodym, dcN_closeDetails]
  have step1 : wrapL (r0 :: openDetails :: (body ++ closeDetails :: (x :: rest2))) =
      r0 :: openDetails :: body ++ closeDetails :: wrapL (x :: rest2) := by
    have e : r0 :: openDetails :: (body ++ closeDetails :: (x :: rest2)) =
        (r0 :: openDetails :: body ++ [closeDetails]) ++ (x :: rest2) := by simp
    rw [e, wrapL_skip _ _ hpre]
    simp
  simp [step1]

/-- One collapser step on a structural depth-2 heading section that runs
to the end of the document: the closing marker is appended at the end. -/
theorem wrapL_structural_section_last (v lg ur : String) (hcs : List Node)
    (r0 : Node) (rest : List Node)
    (hr0 : dcN boundaryTest r0 = 0) (hrest : dcL boundaryTest rest = 0) :
    wrapL (Node.mk "heading" 2 v lg ur hcs :: r0 :: rest) =
      wrapNode (Node.mk "heading" 2 v lg ur hcs) :: r0 :: openDetails ::
        rest ++ [closeDetails] := by
  have hr0m : dcN headingTest2 r0 = 0 :=
    dcN_mono_zero _ _ boundary_of_headingTest2 r0 hr0
  have hrestm : dcL headingTest2 rest = 0 :=
    dcL_mono_zero _ _ boundary_of_headingTest2 rest hrest
  have ht : headingTest2 (Node.mk "heading" 2 v lg ur hcs) = true := by simp
  rw [wrapL.eq_def]
  simp only [ht, Node.type, splitAtBoundary_of_dcL_zero rest hrest]
  have hwid : wrapL (r0 :: openDetails :: (rest ++ [closeDetails])) =
      r0 :: openDetails :: (rest ++ [closeDetails]) :=
    wrapL_id _ (by simp [dcL, hr0m, dcN_openDetails, dcL_append, hrestm, dcN_closeDetails])
  simp [hwid]

theorem wrapNode_mk (ty : String) (d : Nat) (v lg ur : String) (cs : List Node) :
    wrapNode (.mk ty d v lg ur cs) = .mk ty d v lg ur (wrapL cs) := by
  rw [wrapNode.eq_def]

/-- C5 (amended): on a document of two operation sections, the Section
Collapser inserts exactly one opening and one closing marker per
second-level heading; the closing marker sits immediately before the next
heading of depth at most 2 (or at the end of the document), and the
section body stays between the markers — but the operation-id sibling
immediately after each heading ends up before the opening marker, outside
the marker pair. -/
theorem C5_amended_section_collapser
    (H1kids H2kids : List Node) (P1 P2 : Node) (body body2 : List Node)
    (hk1 : dcL boundaryTest H1kids = 0) (hk2 : dcL boundaryTest H2kids = 0)
    (hP1 : dcN boundaryTest P1 = 0) (hP2 : dcN boundaryTest P2 = 0)
    (hbody : dcL boundaryTest body = 0) (hbody2 : dcL boundaryTest body2 = 0) :
    wrapOperationsWithDetails (uRoot
      (uHeading 2 H1kids :: P1 :: (body ++ uHeading 2 H2kids :: P2 :: body2))) =
    uRoot (uHeading 2 H1kids :: P1 :: openDetails :: body ++
      closeDetails :: uHeading 2 H2kids :: P2 :: openDetails :: body2 ++
        [closeDetails]) := by
  simp only [wrapOperationsWithDetails, uRoot, uHeading]
  rw [wrapNode_mk]
  rw [wrapL_structural_section_until "" "" "" H1kids P1 body
    (Node.mk "heading" 2 "" "" "" H2kids) (P2 :: body2) hP1 hbody (by simp)]
  rw [wrapL_structural_section_last "" "" "" H2kids P2 body2 hP2 hbody2]
  have w1 : wrapNode (Node.mk "heading" 2 "" "" "" H1kids) =
      Node.mk "heading" 2 "" "" "" H1kids := by
    rw [wrapNode_mk]
    rw [wrapL_id _ (dcL_mono_zero _ _ boundary_of_headingTest2 _ hk1)]
  have w2 : wrapNode (Node.mk "heading" 2 "" "" "" H2kids) =
      Node.mk "heading" 2 "" "" "" H2kids := by
    rw [wrapNode_mk]
    rw [wrapL_id _ (dcL_mono_zero _ _ boundary_of_headingTest2 _ hk2)]
  rw [w1, w2]
  simp

/-- Concrete instantiation of the amended collapser characterization. -/
theorem C5_amended_section_collapser_witness :
    wrapOperationsWithDetails (uRoot
      (uHeading 2 [uText "Create Pet"] :: uParagraph [uHtml "a1"] ::
        ([uParagraph [uText "body"]] ++
          uHeading 2 [uText "List Pets"] :: uParagraph [uHtml "a2"] :: []))) =
    uRoot (uHeading 2 [uText "Create Pet"] :: uParagraph [uHtml "a1"] ::
      openDetails :: [uParagraph [uText "body"]] ++
      closeDetails :: uHeading 2 [uText "List Pets"] :: uParagraph [uHtml "a2"] ::
        openDetails :: [] ++ [closeDetails]) :=
  C5_amended_section_collapser [uText "Create Pet"] [uText "List Pets"]
    (uParagraph [uHtml "a1"]) (uParagraph [uHtml "a2"])
    [uParagraph [uText "body"]] []
    (by decide) (by decide) (by decide) (by decide) (by decide) (by decide)

/-- C5 (counterexample): the operation-id sibling `uParagraph [uHtml "a1"]`
is a non-heading node lying between the two second-level headings, yet
after the transformation it sits at index 1, before the opening marker at
index 2 — it does not remain between that heading's marker pair (indices
2 and 4). -/
theorem C5_counterexample :
    (wrapOperationsWithDetails (uRoot
      [uHeading 2 [uText "Create Pet"], uParagraph [uHtml "a1"],
       uParagraph [uText "body"], uHeading 2 [uText "List Pets"],
       uParagraph [uHtml "a2"]])).children =
    [uHeading 2 [uText "Create Pet"], uParagraph [uHtml "a1"], openDetails,
     uParagraph [uText "body"], closeDetails,
     uHeading 2 [uText "List Pets"], uParagraph [uHtml "a2"], openDetails,
     closeDetails] := by
  have h := C5_amended_section_collapser [uText "Create Pet"] [uText "List Pets"]
    (uParagraph [uHtml "a1"]) (uParagraph [uHtml "a2"])
    [uParagraph [uText "body"]] []
    (by decide) (by decide) (by decide) (by decide) (by decide) (by decide)
  simp only [List.singleton_append, List.cons_append, List.nil_append,
    List.append_nil] at h
  rw [h]
  simp [uRoot, Node.children]


theorem insertNode_mk (specs : List Spec) (specsDiff : DiffOutcome)
    (ty : String) (d : Nat) (v lg ur : String) (cs : List Node) :
    insertNode specs specsDiff (.mk ty d v lg ur cs) =
      (do
        let cs2 ← insertL specs specsDiff cs
        pure (.mk ty d v lg ur cs2)) := by
  rw [insertNode.eq_def]

/-- The two spec documents of the running petstore example, reduced to
the identifier data the Operation Locator reads. -/
def petstoreSpecs : List Spec := [⟨[("/pets", [("post", "createPet")])]⟩]

/-- A widdershins operation anchor carrying the quoted `opId` pattern. -/
def exAnchor : String := "<a id=\"opIdcreatePet\"></a>"

/-- One notifier-visitor step on the petstore fixture, in its three
scenarios (breaking, non-breaking or unclassified, no correlation). -/
theorem insertL_petstore_scenarios (Hkids : List Node) (rest : List Node)
    (specsDiff : DiffOutcome)
    (hH : dcL notifierTest Hkids = 0)
    (hrest : dcL notifierTest rest = 0) :
    (specsDiff.breakingDifferencesFound = true →
      findMatchingDifference specsDiff.breakingDifferences "paths./pets.post" = true →
      insertL petstoreSpecs specsDiff
          (Node.mk "heading" 2 "" "" "" Hkids :: uParagraph [uHtml exAnchor] :: rest) =
        .ok (Node.mk "heading" 2 "" "" "" Hkids :: breakingNotifier ::
          uParagraph [uHtml exAnchor] :: rest)) ∧
    ((specsDiff.breakingDifferencesFound &&
        findMatchingDifference specsDiff.breakingDifferences "paths./pets.post") = false →
      (findMatchingDifference specsDiff.nonBreakingDifferences "paths./pets.post" ||
        findMatchingDifference specsDiff.unclassifiedDifferences "paths./pets.post") = true →
      insertL petstoreSpecs specsDiff
          (Node.mk "heading" 2 "" "" "" Hkids :: uParagraph [uHtml exAnchor] :: rest) =
        .ok (Node.mk "heading" 2 "" "" "" Hkids :: changesNotifier ::
          uParagraph [uHtml exAnchor] :: rest)) ∧
    ((specsDiff.breakingDifferencesFound &&
        findMatchingDifference specsDiff.breakingDifferences "paths./pets.post") = false →
      (findMatchingDifference specsDiff.nonBreakingDifferences "paths./pets.post" ||
        findMatchingDifference specsDiff.unclassifiedDifferences "paths./pets.post") = false →
      insertL petstoreSpecs specsDiff
          (Node.mk "heading" 2 "" "" "" Hkids :: uParagraph [uHtml exAnchor] :: rest) =
        .ok (Node.mk "heading" 2 "" "" "" Hkids :: uParagraph [uHtml exAnchor] :: rest)) := by
  have hnt : notifierTest (Node.mk "heading" 2 "" "" "" Hkids) = true := by simp
  have hch : (uParagraph [uHtml exAnchor]).children = [uHtml exAnchor] := rfl
  have hex : extractOpId (uHtml exAnchor).value = some "createPet" := by decide
  have hloc : getOperationLocation petstoreSpecs "createPet" = some "paths./pets.post" := by
    decide
  have hP : dcN notifierTest (uParagraph [uHtml exAnchor]) = 0 := by decide
  refine ⟨fun hf hm => ?_, fun hnb hm => ?_, fun hnb hm => ?_⟩
  · rw [insertL.eq_def]
    simp only [hnt, hch, hex, hloc, hf, hm, Option.getD_some]
    rw [insertL_id petstoreSpecs specsDiff
      (createNotifierNode "BREAKING CHANGES" "🚨" :: uParagraph [uHtml exAnchor] :: rest)
      (by simp [dcL, dcN_createNotifierNode, hP, hrest])]
    simp [breakingNotifier]
  · rw [insertL.eq_def]
    simp only [hnt, hch, hex, hloc, hnb, hm, Option.getD_some]
    rw [insertL_id petstoreSpecs specsDiff
      (createNotifierNode "CHANGES" "⚠" :: uParagraph [uHtml exAnchor] :: rest)
      (by simp [dcL, dcN_createNotifierNode, hP, hrest])]
    simp [changesNotifier]
  · rw [insertL.eq_def]
    simp only [hnt, hch, hex, hloc, hnb, hm, Option.getD_some]
    have hN : insertNode petstoreSpecs specsDiff (Node.mk "heading" 2 "" "" "" Hkids) =
        .ok (Node.mk "heading" 2 "" "" "" Hkids) := by
      rw [insertNode_mk]
      rw [insertL_id petstoreSpecs specsDiff Hkids hH]
      rfl
    rw [hN]
    rw [insertL_id petstoreSpecs specsDiff (uParagraph [uHtml exAnchor] :: rest)
      (by simp [dcL, hP, hrest])]
    rfl


/-- C2 (amended): for a second-level heading whose operation identifier
resolves, the notifier priority is as claimed — breaking differences
present and correlating, else non-breaking or unclassified correlating,
else nothing — but the marker is spliced at `index + 1`, immediately
after the heading and before the operation-id sibling (not after it), and
traversal resumes at the inserted node, which is not a heading, so the
heading is not reprocessed. -/
theorem C2_amended_notifier_position (Hkids : List Node) (rest : List Node)
    (specsDiff : DiffOutcome)
    (hH : dcL notifierTest Hkids = 0)
    (hrest : dcL notifierTest rest = 0) :
    (specsDiff.breakingDifferencesFound = true →
      findMatchingDifference specsDiff.breakingDifferences "paths./pets.post" = true →
      insertL petstoreSpecs specsDiff
          (Node.mk "heading" 2 "" "" "" Hkids :: uParagraph [uHtml exAnchor] :: rest) =
        .ok (Node.mk "heading" 2 "" "" "" Hkids :: breakingNotifier ::
          uParagraph [uHtml exAnchor] :: rest)) ∧
    ((specsDiff.breakingDifferencesFound &&
        findMatchingDifference specsDiff.breakingDifferences "paths./pets.post") = false →
      (findMatchingDifference specsDiff.nonBreakingDifferences "paths./pets.post" ||
        findMatchingDifference specsDiff.unclassifiedDifferences "paths./pets.post") = true →
      insertL petstoreSpecs specsDiff
          (Node.mk "heading" 2 "" "" "" Hkids :: uParagraph [uHtml exAnchor] :: rest) =
        .ok (Node.mk "heading" 2 "" "" "" Hkids :: changesNotifier ::
          uParagraph [uHtml exAnchor] :: rest)) ∧
    ((specsDiff.breakingDifferencesFound &&
        findMatchingDifference specsDiff.breakingDifferences "paths./pets.post") = false →
      (findMatchingDifference specsDiff.nonBreakingDifferences "paths./pets.post" ||
        findMatchingDifference specsDiff.unclassifiedDifferences "paths./pets.post") = false →
      insertL petstoreSpecs specsDiff
          (Node.mk "heading" 2 "" "" "" Hkids :: uParagraph [uHtml exAnchor] :: rest) =
        .ok (Node.mk "heading" 2 "" "" "" Hkids :: uParagraph [uHtml exAnchor] :: rest)) :=
  insertL_petstore_scenarios Hkids rest specsDiff hH hrest

/-- A diff outcome with one breaking difference at
`paths./pets.post.requestBody`. -/
def exDiffBreaking : DiffOutcome :=
  ⟨true, some [⟨[], [⟨"paths./pets.post.requestBody"⟩]⟩], none, none⟩

/-- A diff outcome with one non-breaking difference and no breaking
differences found. -/
def exDiffNonBreaking : DiffOutcome :=
  ⟨false, none, some [⟨[⟨"paths./pets.post.responses.200"⟩], []⟩], none⟩

/-- A diff outcome with no differences at all. -/
def exDiffNone : DiffOutcome := ⟨false, none, none, none⟩

/-- Concrete instantiation of the three notifier scenarios. -/
theorem C2_amended_notifier_position_witness :
    (insertL petstoreSpecs exDiffBreaking
        (Node.mk "heading" 2 "" "" "" [uText "Create Pet"] ::
          uParagraph [uHtml exAnchor] :: []) =
      .ok (Node.mk "heading" 2 "" "" "" [uText "Create Pet"] :: breakingNotifier ::
        uParagraph [uHtml exAnchor] :: [])) ∧
    (insertL petstoreSpecs exDiffNonBreaking
        (Node.mk "heading" 2 "" "" "" [uText "Create Pet"] ::
          uParagraph [uHtml exAnchor] :: []) =
      .ok (Node.mk "heading" 2 "" "" "" [uText "Create Pet"] :: changesNotifier ::
        uParagraph [uHtml exAnchor] :: [])) ∧
    (insertL petstoreSpecs exDiffNone
        (Node.mk "heading" 2 "" "" "" [uText "Create Pet"] ::
          uParagraph [uHtml exAnchor] :: []) =
      .ok (Node.mk "heading" 2 "" "" "" [uText "Create Pet"] ::
        uParagraph [uHtml exAnchor] :: [])) :=
  ⟨(C2_amended_notifier_position [uText "Create Pet"] [] exDiffBreaking
      (by decide) (by decide)).1 (by decide) (by decide),
   (C2_amended_notifier_position [uText "Create Pet"] [] exDiffNonBreaking
      (by decide) (by decide)).2.1 (by decide) (by decide),
   (C2_amended_notifier_position [uText "Create Pet"] [] exDiffNone
      (by decide) (by decide)).2.2 (by decide) (by decide)⟩

/-- C2 (counterexample): with one breaking difference correlating to the
operation, the marker lands at index 1 — between the heading and the
operation-id sibling — not as a sibling immediately after the
operation-id sibling (which would be index 2). -/
theorem C2_counterexample :
    insertChangeNotifier petstoreSpecs exDiffBreaking
      (uRoot [Node.mk "heading" 2 "" "" "" [uText "Create Pet"],
              uParagraph [uHtml exAnchor], uParagraph [uText "body"]]) =
    .ok (uRoot [Node.mk "heading" 2 "" "" "" [uText "Create Pet"], breakingNotifier,
                uParagraph [uHtml exAnchor], uParagraph [uText "body"]]) := by
  have h := (insertL_petstore_scenarios [uText "Create Pet"]
    [uParagraph [uText "body"]] exDiffBreaking (by decide) (by decide)).1
    (by decide) (by decide)
  rw [insertChangeNotifier, uRoot, insertNode_mk]
  rw [show (([Node.mk "heading" 2 "" "" "" [uText "Create Pet"],
      uParagraph [uHtml exAnchor], uParagraph [uText "body"]]) : List Node) =
    Node.mk "heading" 2 "" "" "" [uText "Create Pet"] ::
      uParagraph [uHtml exAnchor] :: [uParagraph [uText "body"]] from rfl]
  rw [h]
  rfl


/-- A heading whose following sibling carries no quoted `opId` pattern
makes the notifier stage throw: `match` returns `null` and indexing it
raises. -/
theorem insertL_error_on_missing_pattern (specs : List Spec) (specsDiff : DiffOutcome)
    (hv hlg hur : String) (Hkids : List Node) (P : Node) (idNode : Node)
    (pkids : List Node) (rest : List Node)
    (hch : P.children = idNode :: pkids)
    (hex : extractOpId idNode.value = none) :
    insertL specs specsDiff (Node.mk "heading" 2 hv hlg hur Hkids :: P :: rest) =
      .error errNoOpId := by
  have hnt : notifierTest (Node.mk "heading" 2 hv hlg hur Hkids) = true := by simp
  rw [insertL.eq_def]
  simp [hnt, hch, hex]
  rfl

/-- C6 (amended): when the following sibling's first child's text does
not contain the quoted `opId` pattern, the Change Notifier Inserter does
not skip silently: the failed match is indexed, a `TypeError` is raised,
and the stage aborts with an error instead of completing. -/
theorem C6_amended_error_on_missing_pattern (specs : List Spec)
    (specsDiff : DiffOutcome) (hv hlg hur : String) (Hkids : List Node) (P : Node)
    (idNode : Node) (pkids : List Node) (rest : List Node)
    (hch : P.children = idNode :: pkids)
    (hex : extractOpId idNode.value = none) :
    insertL specs specsDiff (Node.mk "heading" 2 hv hlg hur Hkids :: P :: rest) =
      .error errNoOpId :=
  insertL_error_on_missing_pattern specs specsDiff hv hlg hur Hkids P idNode pkids rest
    hch hex

/-- Concrete instantiation of the missing-pattern error. -/
theorem C6_amended_error_on_missing_pattern_witness :
    insertL [] exDiffNone
      (Node.mk "heading" 2 "" "" "" [uText "Pets"] ::
        uParagraph [uText "no operation id pattern here"] :: []) =
      .error errNoOpId :=
  C6_amended_error_on_missing_pattern [] exDiffNone "" "" "" [uText "Pets"]
    (uParagraph [uText "no operation id pattern here"])
    (uText "no operation id pattern here") [] [] rfl (by decide)

/-- C6 (counterexample): on a tree whose second-level heading is followed
by a sibling without the quoted `opId` pattern, the whole stage returns
an error — it does not complete silently. -/
theorem C6_counterexample :
    insertChangeNotifier [] exDiffNone
      (uRoot [Node.mk "heading" 2 "" "" "" [uText "Pets"],
              uParagraph [uText "no operation id pattern here"]]) =
    .error errNoOpId := by
  have h := insertL_error_on_missing_pattern [] exDiffNone "" "" "" [uText "Pets"]
    (uParagraph [uText "no operation id pattern here"])
    (uText "no operation id pattern here") [] [] rfl (by decide)
  rw [insertChangeNotifier, uRoot, insertNode_mk]
  rw [show (([Node.mk "heading" 2 "" "" "" [uText "Pets"],
      uParagraph [uText "no operation id pattern here"]]) : List Node) =
    Node.mk "heading" 2 "" "" "" [uText "Pets"] ::
      uParagraph [uText "no operation id pattern here"] :: [] from rfl]
  rw [h]
  rfl

/-- C7 (counterexample): on a tree whose blockquote contains an
`Authentication` heading followed by a `Scroll down for` paragraph, the
first run keeps the blockquote (its first text is `Authentication`) and
removes the heading inside it; the second run then sees `Scroll down for`
as the blockquote's first text and removes the whole blockquote — the
second run is not a no-op. -/
theorem C7_counterexample :
    (removeUnwantedNodes (uRoot [uBlockquote
      [Node.mk "heading" 3 "" "" "" [uText "Authentication"],
       uParagraph [uText "Scroll down for code samples"]]])).children.length = 1 ∧
    (removeUnwantedNodes (removeUnwantedNodes (uRoot [uBlockquote
      [Node.mk "heading" 3 "" "" "" [uText "Authentication"],
       uParagraph [uText "Scroll down for code samples"]]]))).children.length = 0 := by
  decide

/- Whether a subtree contains no heading node at all. -/
mutual
def headingFreeN : Node → Bool
  | .mk ty _ _ _ _ cs => (ty != "heading") && headingFreeL cs
def headingFreeL : List Node → Bool
  | [] => true
  | n :: ns => headingFreeN n && headingFreeL ns
end

/- Whether no heading node occurs strictly inside any blockquote of the
tree. -/
mutual
def bqOkN : Node → Bool
  | .mk ty _ _ _ _ cs => if ty == "blockquote" then headingFreeL cs else bqOkL cs
def bqOkL : List Node → Bool
  | [] => true
  | n :: ns => bqOkN n && bqOkL ns
end

/-- The shape shared by the blockquote and heading stripping rules: match
a type tag and a property of the first descendant text value. -/
def ftTest (T : String) (bad : String → Bool) (n : Node) : Bool :=
  n.type == T &&
    match findTextNode n with
    | some tn => bad tn.value
    | none => false

theorem stripScrollTest_eq :
    stripScrollTest = ftTest "blockquote" (fun s => jsStartsWith s "Scroll down for") := by
  funext n
  rfl

theorem stripAuthTest_eq :
    stripAuthTest = ftTest "heading" (fun s => s == "Authentication") := by
  funext n
  rfl

/-- The first descendant text value of a node. -/
def firstTextValue (n : Node) : Option String := (findTextNode n).map Node.value

/-- The first descendant text value of a sibling list. -/
def firstTextValueL (l : List Node) : Option String := (findTextNodeL l).map Node.value

theorem firstTextValue_mk (ty : String) (d : Nat) (v lg ur : String) (cs : List Node) :
    firstTextValue (.mk ty d v lg ur cs) =
      if ty == "text" then some v else firstTextValueL cs := by
  by_cases h : ty == "text"
  · simp [firstTextValue, findTextNode, h, Node.value]
  · simp only [firstTextValue, findTextNode, firstTextValueL]
    simp [h]

theorem firstTextValueL_cons (n : Node) (ns : List Node) :
    firstTextValueL (n :: ns) =
      match firstTextValue n with
      | some s => some s
      | none => firstTextValueL ns := by
  simp only [firstTextValueL, firstTextValue, findTextNodeL]
  cases findTextNode n <;> simp

theorem ftTest_eq_value_form (T : String) (bad : String → Bool) (n : Node) :
    ftTest T bad n =
      (n.type == T &&
        match firstTextValue n with
        | some s => bad s
        | none => false) := by
  simp only [ftTest, firstTextValue]
  cases findTextNode n <;> simp

theorem ftTest_true_elim (T : String) (bad : String → Bool) (n : Node)
    (h : ftTest T bad n = true) :
    n.type = T ∧ ∃ s, firstTextValue n = some s ∧ bad s = true := by
  rw [ftTest_eq_value_form] at h
  simp at h
  rcases h with ⟨h1, h2⟩
  refine ⟨h1, ?_⟩
  cases hf : firstTextValue n with
  | none => rw [hf] at h2; simp at h2
  | some s => rw [hf] at h2; exact ⟨s, rfl, h2⟩

theorem stripNode_type (test : Node → Bool) (n : Node) :
    (stripNode test n).type = n.type := by
  cases n with
  | mk ty d v lg ur cs => rfl

/-- A tree without matches is untouched by a stripping pass. -/
theorem stripNode_id (test : Node → Bool) (n : Node) (h : dcN test n = 0) :
    stripNode test n = n := by
  induction n using Node.rec
      (motive_2 := fun l => dcL test l = 0 → stripList test l = l) with
  | mk ty d v lg ur cs ih =>
    simp only [dcN] at h
    simp only [stripNode]
    rw [ih (by omega)]
  | nil => simp [stripList]
  | cons hd tl ih1 ih2 =>
    rename_i hh
    simp only [dcL] at hh
    have h1 : test hd = false := dcN_zero_not _ _ (by omega)
    simp only [stripList, h1]
    simp [ih1 (by omega), ih2 (by omega)]

theorem stripList_id (test : Node → Bool) (l : List Node) (h : dcL test l = 0) :
    stripList test l = l := by
  induction l with
  | nil => simp [stripList]
  | cons hd tl ih =>
    simp only [dcL] at h
    have h1 : test hd = false := dcN_zero_not _ _ (by omega)
    simp only [stripList, h1]
    simp [stripNode_id test hd (by omega), ih (by omega)]

/-- Removing matched nodes never changes the first descendant text value
of a node whose own first text value does not satisfy the rule: the
removed subtrees all lie after that text in preorder. -/
theorem ftv_strip_preserved (T : String) (bad : String → Bool) (n : Node)
    (h : match firstTextValue n with | some s => bad s = false | none => True) :
    firstTextValue (stripNode (ftTest T bad) n) = firstTextValue n := by
  induction n using Node.rec
      (motive_2 := fun l =>
        (match firstTextValueL l with | some s => bad s = false | none => True) →
        firstTextValueL (stripList (ftTest T bad) l) = firstTextValueL l) with
  | mk ty d v lg ur cs ih =>
    simp only [stripNode]
    rw [firstTextValue_mk, firstTextValue_mk]
    by_cases hty : ty == "text"
    · simp [hty]
    · simp only [hty, if_false, Bool.false_eq_true]
      rw [firstTextValue_mk] at h
      simp only [hty, if_false, Bool.false_eq_true] at h
      exact ih h
  | nil => rfl
  | cons hd tl ih1 ih2 =>
    rename_i hh
    by_cases ht : ftTest T bad hd
    · rcases ftTest_true_elim T bad hd ht with ⟨_, s, hs, hbad⟩
      rw [firstTextValueL_cons, hs] at hh
      simp at hh
      rw [hbad] at hh
      exact absurd hh (by simp)
    · simp only [stripList, ht, Bool.false_eq_true, if_false]
      rw [firstTextValueL_cons, firstTextValueL_cons]
      rw [firstTextValueL_cons] at hh
      cases hf : firstTextValue hd with
      | some s =>
        rw [hf] at hh
        simp only [] at hh
        have e1 : firstTextValue (stripNode (ftTest T bad) hd) = some s := by
          rw [ih1 (by rw [hf]; exact hh)]
          exact hf
        rw [e1]
      | none =>
        rw [hf] at hh
        have e1 : firstTextValue (stripNode (ftTest T bad) hd) = none := by
          rw [ih1 (by rw [hf]; trivial)]
          exact hf
        rw [e1]
        simp only []
        exact ih2 hh

/-- After one pass of a first-text stripping rule over a non-matching
tree, no matching node remains anywhere. -/
theorem dcN_strip_ftTest (T : String) (bad : String → Bool) (n : Node)
    (h : ftTest T bad n = false) :
    dcN (ftTest T bad) (stripNode (ftTest T bad) n) = 0 := by
  induction n using Node.rec
      (motive_2 := fun l => dcL (ftTest T bad) (stripList (ftTest T bad) l) = 0) with
  | mk ty d v lg ur cs ih =>
    simp only [stripNode, dcN]
    have hself : ftTest T bad (.mk ty d v lg ur (stripList (ftTest T bad) cs)) = false := by
      rw [ftTest_eq_value_form]
      by_cases hty : ty == T
      · rw [ftTest_eq_value_form] at h
        simp only [Node.type] at h ⊢
        simp only [hty, Bool.true_and] at h ⊢
        have hpres : firstTextValue (.mk ty d v lg ur (stripList (ftTest T bad) cs)) =
            firstTextValue (.mk ty d v lg ur cs) := by
          have := ftv_strip_preserved T bad (.mk ty d v lg ur cs)
            (by cases hf : firstTextValue (.mk ty d v lg ur cs) with
                | none => trivial
                | some s => rw [hf] at h; simpa using h)
          simpa [stripNode] using this
        rw [hpres]
        exact h
      · simp [Node.type, hty]
    simp [hself, ih]
  | nil => simp [stripList, dcL]
  | cons hd tl ih1 ih2 =>
    by_cases ht : ftTest T bad hd
    · simp only [stripList, ht, if_true]
      exact ih2
    · simp only [stripList, ht, Bool.false_eq_true, if_false, dcL]
      rw [ih1 (by simpa using ht)]
      simpa using ih2

/-- A predicate that ignores children is unaffected by stripping. -/
theorem dcN_zero_strip_inv (q : Node → Bool)
    (hq : ∀ ty d v lg ur cs cs2, q (.mk ty d v lg ur cs) = q (.mk ty d v lg ur cs2))
    (test : Node → Bool) (n : Node) (h : dcN q n = 0) :
    dcN q (stripNode test n) = 0 := by
  induction n using Node.rec
      (motive_2 := fun l => dcL q l = 0 → dcL q (stripList test l) = 0) with
  | mk ty d v lg ur cs ih =>
    simp only [dcN] at h ⊢
    simp only [stripNode]
    have e1 : q (.mk ty d v lg ur (stripList test cs)) = q (.mk ty d v lg ur cs) :=
      hq ty d v lg ur _ _
    by_cases hself : q (.mk ty d v lg ur cs)
    · simp [hself] at h
    · simp only [dcN, e1, hself, Bool.false_eq_true, if_false]
      simp [hself] at h
      simp [ih h]
  | nil => simp [stripList, dcL]
  | cons hd tl ih1 ih2 =>
    rename_i hh
    simp only [dcL] at hh
    by_cases ht : test hd
    · simp only [stripList, ht, if_true]
      exact ih2 (by omega)
    · simp only [stripList, ht, Bool.false_eq_true, if_false, dcL]
      rw [ih1 (by omega)]
      simp [ih2 (by omega)]

/-- A children-ignoring stripping rule leaves no matching node behind
when the root does not match. -/
theorem dcN_strip_valueinv (test : Node → Bool)
    (hq : ∀ ty d v lg ur cs cs2,
      test (.mk ty d v lg ur cs) = test (.mk ty d v lg ur cs2))
    (n : Node) (h : test n = false) :
    dcN test (stripNode test n) = 0 := by
  induction n using Node.rec
      (motive_2 := fun l => dcL test (stripList test l) = 0) with
  | mk ty d v lg ur cs ih =>
    simp only [stripNode, dcN]
    have e1 : test (.mk ty d v lg ur (stripList test cs)) = false := by
      rw [hq ty d v lg ur _ cs]
      exact h
    simp [e1, ih]
  | nil => simp [stripList, dcL]
  | cons hd tl ih1 ih2 =>
    by_cases ht : test hd
    · simp only [stripList, ht, if_true]
      exact ih2
    · simp only [stripList, ht, Bool.false_eq_true, if_false, dcL]
      rw [ih1 (by simpa using ht)]
      simpa using ih2

theorem headingFreeN_strip (test : Node → Bool) (n : Node)
    (h : headingFreeN n = true) : headingFreeN (stripNode test n) = true := by
  induction n using Node.rec
      (motive_2 := fun l =>
        headingFreeL l = true → headingFreeL (stripList test l) = true) with
  | mk ty d v lg ur cs ih =>
    simp only [headingFreeN, Bool.and_eq_true] at h
    simp only [stripNode, headingFreeN, Bool.and_eq_true]
    exact ⟨h.1, ih h.2⟩
  | nil =>
    rename_i hh
    simpa [stripList] using hh
  | cons hd tl ih1 ih2 =>
    rename_i hh
    simp only [headingFreeL, Bool.and_eq_true] at hh
    by_cases ht : test hd
    · simp only [stripList, ht, if_true]
      exact ih2 hh.2
    · simp only [stripList, ht, Bool.false_eq_true, if_false, headingFreeL,
        Bool.and_eq_true]
      exact ⟨ih1 hh.1, ih2 hh.2⟩

theorem headingFreeL_strip (test : Node → Bool) (l : List Node)
    (h : headingFreeL l = true) : headingFreeL (stripList test l) = true := by
  induction l with
  | nil => simpa [stripList] using h
  | cons hd tl ih =>
    simp only [headingFreeL, Bool.and_eq_true] at h
    by_cases ht : test hd
    · simp only [stripList, ht, if_true]
      exact ih h.2
    · simp only [stripList, ht, Bool.false_eq_true, if_false, headingFreeL,
        Bool.and_eq_true]
      exact ⟨headingFreeN_strip test hd h.1, ih h.2⟩

theorem bqOkN_strip (test : Node → Bool) (n : Node) (h : bqOkN n = true) :
    bqOkN (stripNode test n) = true := by
  induction n using Node.rec
      (motive_2 := fun l => bqOkL l = true → bqOkL (stripList test l) = true) with
  | mk ty d v lg ur cs ih =>
    simp only [bqOkN] at h ⊢
    simp only [stripNode, bqOkN]
    by_cases hty : ty == "blockquote"
    · simp only [hty, if_true] at h ⊢
      exact headingFreeL_strip test cs h
    · simp only [hty, Bool.false_eq_true, if_false] at h ⊢
      exact ih h
  | nil =>
    rename_i hh
    simpa [stripList] using hh
  | cons hd tl ih1 ih2 =>
    rename_i hh
    simp only [bqOkL, Bool.and_eq_true] at hh
    by_cases ht : test hd
    · simp only [stripList, ht, if_true]
      exact ih2 hh.2
    · simp only [stripList, ht, Bool.false_eq_true, if_false, bqOkL, Bool.and_eq_true]
      exact ⟨ih1 hh.1, ih2 hh.2⟩

theorem dcN_auth_zero_of_headingFree (n : Node) (h : headingFreeN n = true) :
    dcN stripAuthTest n = 0 := by
  induction n using Node.rec
      (motive_2 := fun l => headingFreeL l = true → dcL stripAuthTest l = 0) with
  | mk ty d v lg ur cs ih =>
    simp only [headingFreeN, Bool.and_eq_true] at h
    have hself : stripAuthTest (.mk ty d v lg ur cs) = false := by
      simp only [stripAuthTest, Node.type]
      have : (ty == "heading") = false := by
        simpa using h.1
      simp [this]
    simp only [dcN, hself, Bool.false_eq_true, if_false]
    simp [ih h.2]
  | nil => simp [dcL]
  | cons hd tl ih1 ih2 =>
    rename_i hh
    simp only [headingFreeL, Bool.and_eq_true] at hh
    simp only [dcL]
    rw [ih1 hh.1, ih2 hh.2]

theorem dcL_auth_zero_of_headingFree (l : List Node) (h : headingFreeL l = true) :
    dcL stripAuthTest l = 0 := by
  induction l with
  | nil => simp [dcL]
  | cons hd tl ih =>
    simp only [headingFreeL, Bool.and_eq_true] at h
    simp only [dcL]
    rw [dcN_auth_zero_of_headingFree hd h.1, ih h.2]

/-- When no heading sits inside a blockquote, the `Authentication` pass
does not touch blockquote interiors, so a tree free of matching
blockquotes stays free of them. -/
theorem dcN_scroll_strip_auth (n : Node) (hbq : bqOkN n = true)
    (h : dcN stripScrollTest n = 0) :
    dcN stripScrollTest (stripNode stripAuthTest n) = 0 := by
  induction n using Node.rec
      (motive_2 := fun l => bqOkL l = true → dcL stripScrollTest l = 0 →
        dcL stripScrollTest (stripList stripAuthTest l) = 0) with
  | mk ty d v lg ur cs ih =>
    simp only [dcN] at h
    have hself : stripScrollTest (.mk ty d v lg ur cs) = false := by
      by_cases hx : stripScrollTest (.mk ty d v lg ur cs)
      · simp [hx] at h
      · simpa using hx
    simp only [hself, Bool.false_eq_true, if_false] at h
    by_cases hty : ty == "blockquote"
    · simp only [bqOkN, hty, if_true] at hbq
      have e1 : stripList stripAuthTest cs = cs :=
        stripList_id _ _ (dcL_auth_zero_of_headingFree cs hbq)
      simp only [stripNode, e1, dcN, hself, Bool.false_eq_true, if_false]
      simpa using h
    · simp only [bqOkN, hty, Bool.false_eq_true, if_false] at hbq
      have hself2 : stripScrollTest (.mk ty d v lg ur (stripList stripAuthTest cs)) = false := by
        simp only [stripScrollTest, Node.type]
        simp [hty]
      simp only [stripNode, dcN, hself2, Bool.false_eq_true, if_false]
      simpa using ih hbq (by omega)
  | nil =>
    simp [stripList, dcL]
  | cons hd tl ih1 ih2 =>
    rename_i hbq hh
    simp only [bqOkL, Bool.and_eq_true] at hbq
    simp only [dcL] at hh
    by_cases ht : stripAuthTest hd
    · simp only [stripList, ht, if_true]
      exact ih2 hbq.2 (by omega)
    · simp only [stripList, ht, Bool.false_eq_true, if_false, dcL]
      rw [ih1 hbq.1 (by omega), ih2 hbq.2 (by omega)]

theorem stripHtmlH1Test_inv (ty : String) (d : Nat) (v lg ur : String)
    (cs cs2 : List Node) :
    stripHtmlH1Test (.mk ty d v lg ur cs) = stripHtmlH1Test (.mk ty d v lg ur cs2) := rfl

/-- C7 (amended): on every documentation tree in which no heading node
occurs inside a blockquote, running the Boilerplate Stripper twice equals
running it once.  (Without that condition a second run can remove more:
removing an `Authentication` heading inside a blockquote can expose a
`Scroll down for` text as the blockquote's first text.) -/
theorem C7_amended_strip_idempotent (cs : List Node)
    (hbq : bqOkN (uRoot cs) = true) :
    removeUnwantedNodes (removeUnwantedNodes (uRoot cs)) =
      removeUnwantedNodes (uRoot cs) := by
  have hp1t : ∀ m : Node, m.type = "root" → stripHtmlH1Test m = false := by
    intro m hm
    simp [stripHtmlH1Test, hm]
  have hp2t : ∀ m : Node, m.type = "root" → stripScrollTest m = false := by
    intro m hm
    simp [stripScrollTest, hm]
  have hp3t : ∀ m : Node, m.type = "root" → stripAuthTest m = false := by
    intro m hm
    simp [stripAuthTest, hm]
  have hroot : (uRoot cs).type = "root" := rfl
  have t1 : (stripNode stripHtmlH1Test (uRoot cs)).type = "root" := by
    rw [stripNode_type]
    exact hroot
  have t2 : (stripNode stripScrollTest (stripNode stripHtmlH1Test (uRoot cs))).type =
      "root" := by
    rw [stripNode_type]
    exact t1
  have f1 : dcN stripHtmlH1Test (stripNode stripHtmlH1Test (uRoot cs)) = 0 :=
    dcN_strip_valueinv stripHtmlH1Test stripHtmlH1Test_inv (uRoot cs) (hp1t _ hroot)
  have f1b : dcN stripHtmlH1Test
      (stripNode stripScrollTest (stripNode stripHtmlH1Test (uRoot cs))) = 0 :=
    dcN_zero_strip_inv stripHtmlH1Test stripHtmlH1Test_inv stripScrollTest _ f1
  have f1c : dcN stripHtmlH1Test (removeUnwantedNodes (uRoot cs)) = 0 :=
    dcN_zero_strip_inv stripHtmlH1Test stripHtmlH1Test_inv stripAuthTest _ f1b
  have bq1 : bqOkN (stripNode stripHtmlH1Test (uRoot cs)) = true :=
    bqOkN_strip _ _ hbq
  have bq2 : bqOkN (stripNode stripScrollTest (stripNode stripHtmlH1Test (uRoot cs))) =
      true := bqOkN_strip _ _ bq1
  have f2 : dcN stripScrollTest
      (stripNode stripScrollTest (stripNode stripHtmlH1Test (uRoot cs))) = 0 := by
    rw [stripScrollTest_eq]
    exact dcN_strip_ftTest _ _ _
      (by rw [← stripScrollTest_eq]; exact hp2t _ t1)
  have f2b : dcN stripScrollTest (removeUnwantedNodes (uRoot cs)) = 0 :=
    dcN_scroll_strip_auth _ bq2 f2
  have f3 : dcN stripAuthTest (removeUnwantedNodes (uRoot cs)) = 0 := by
    rw [removeUnwantedNodes, stripAuthTest_eq]
    exact dcN_strip_ftTest _ _ _
      (by rw [← stripAuthTest_eq]; exact hp3t _ t2)
  rw [removeUnwantedNodes]
  conv =>
    lhs
    rw [stripNode_id stripHtmlH1Test _ f1c]
    rw [stripNode_id stripScrollTest _ f2b]
    rw [stripNode_id stripAuthTest _ f3]

/-- Concrete instantiation of the amended Boilerplate Stripper
idempotence. -/
theorem C7_amended_strip_idempotent_witness :
    removeUnwantedNodes (removeUnwantedNodes (uRoot
      [uHtml "<h1 id=top>Title</h1>",
       uBlockquote [uParagraph [uText "Scroll down for code samples"]],
       Node.mk "heading" 2 "" "" "" [uText "Authentication"],
       uParagraph [uText "kept content"]])) =
    removeUnwantedNodes (uRoot
      [uHtml "<h1 id=top>Title</h1>",
       uBlockquote [uParagraph [uText "Scroll down for code samples"]],
       Node.mk "heading" 2 "" "" "" [uText "Authentication"],
       uParagraph [uText "kept content"]]) :=
  C7_amended_strip_idempotent
    [uHtml "<h1 id=top>Title</h1>",
     uBlockquote [uParagraph [uText "Scroll down for code samples"]],
     Node.mk "heading" 2 "" "" "" [uText "Authentication"],
     uParagraph [uText "kept content"]]
    (by decide)

theorem exceptBind_ok {α β : Type} (a : α) (f : α → Except String β) :
    (Except.ok a : Except String α) >>= f = f a := rfl

theorem exceptBind_error {α β : Type} (e : String) (f : α → Except String β) :
    (Except.error e : Except String α) >>= f = Except.error e := rfl

theorem exceptPure {α : Type} (a : α) : (pure a : Except String α) = Except.ok a := rfl

theorem exceptThrow {α : Type} (e : String) :
    (throw e : Except String α) = Except.error e := rfl

theorem cbTextN_changesNotifier :
    containsBreakingTextN (createNotifierNode "CHANGES" "⚠") = false := by decide

/-- With no breaking differences found, the Change Notifier traversal
preserves, node for node, the presence of the literal text
`"BREAKING CHANGES"` anywhere in the tree: it only ever splices CHANGES
notifiers. -/
theorem insertL_cbTextL (specs : List Spec) (specsDiff : DiffOutcome)
    (hf : specsDiff.breakingDifferencesFound = false) (l : List Node) :
    ∀ out, insertL specs specsDiff l = .ok out →
      containsBreakingTextL out = containsBreakingTextL l := by
  refine insertL.induct specs specsDiff
    (fun n => ∀ out, insertNode specs specsDiff n = .ok out →
      containsBreakingTextN out = containsBreakingTextN n)
    (fun l => ∀ out, insertL specs specsDiff l = .ok out →
      containsBreakingTextL out = containsBreakingTextL l)
    ?_ ?_ ?_ ?_ ?_ ?_ ?_ ?_ ?_ l
  · intro ty d v lg ur cs ihcs out hok
    rw [insertNode_mk] at hok
    cases hcs : insertL specs specsDiff cs with
    | error e => rw [hcs] at hok; simp [exceptBind_error] at hok
    | ok cs2 =>
      rw [hcs] at hok
      simp [exceptBind_ok, exceptPure] at hok
      rw [← hok]
      simp only [containsBreakingTextN]
      rw [ihcs cs2 hcs]
  · intro out hok
    rw [insertL.eq_def] at hok
    simp [exceptPure] at hok
    rw [← hok]
  · intro n hnt out hok
    rw [insertL.eq_def] at hok
    simp [hnt, exceptThrow] at hok
  · intro n hnt r0 rr hch out hok
    rw [insertL.eq_def] at hok
    simp [hnt, hch, exceptThrow] at hok
  · intro n hnt r0 rr n1 ns hch hex out hok
    rw [insertL.eq_def] at hok
    simp [hnt, hch, hex, exceptThrow] at hok
  · intro n hnt r0 rr n1 ns hch opid hex opLoc hcond ih out hok
    rw [hf] at hcond
    simp at hcond
  · intro n hnt r0 rr n1 ns hch opid hex opLoc hcond1 hcond2 ih out hok
    rw [insertL.eq_def] at hok
    simp only [hnt, hch, hex] at hok
    rw [if_neg (by simpa using hcond1), if_pos (by simpa using hcond2)] at hok
    cases hrec : insertL specs specsDiff (createNotifierNode "CHANGES" "⚠" :: r0 :: rr) with
    | error e => rw [hrec] at hok; simp [exceptBind_error] at hok
    | ok out1 =>
      rw [hrec] at hok
      simp [exceptBind_ok, exceptPure] at hok
      rw [← hok]
      have e1 := ih out1 hrec
      simp only [containsBreakingTextL, cbTextN_changesNotifier, Bool.false_or] at e1 ⊢
      rw [e1]
  · intro n hnt r0 rr n1 ns hch opid hex opLoc hcond1 hcond2 ihn ihl out hok
    rw [insertL.eq_def] at hok
    simp only [hnt, hch, hex] at hok
    rw [if_neg (by simpa using hcond1), if_neg (by simpa using hcond2)] at hok
    cases hn2 : insertNode specs specsDiff n with
    | error e => rw [hn2] at hok; simp [exceptBind_error] at hok
    | ok n2 =>
      cases hr2 : insertL specs specsDiff (r0 :: rr) with
      | error e => rw [hn2, hr2] at hok; simp [exceptBind_error, exceptBind_ok] at hok
      | ok rest2 =>
        rw [hn2, hr2] at hok
        simp [exceptBind_ok, exceptPure] at hok
        rw [← hok]
        simp only [containsBreakingTextL]
        rw [ihn n2 hn2, ihl rest2 hr2]
        simp [containsBreakingTextL]
  · intro n ns hnt ihn ihl out hok
    rw [insertL.eq_def] at hok
    simp only [Bool.not_eq_true] at hnt
    simp only [hnt] at hok
    cases hn2 : insertNode specs specsDiff n with
    | error e => rw [hn2] at hok; simp [exceptBind_error] at hok
    | ok n2 =>
      cases hr2 : insertL specs specsDiff ns with
      | error e => rw [hn2, hr2] at hok; simp [exceptBind_error, exceptBind_ok] at hok
      | ok rest2 =>
        rw [hn2, hr2] at hok
        simp [exceptBind_ok, exceptPure] at hok
        rw [← hok]
        simp only [containsBreakingTextL]
        rw [ihn n2 hn2, ihl rest2 hr2]

theorem isBreakingMarker_text (n : Node) (h : isBreakingMarker n = true) :
    containsBreakingTextN n = true := by
  rw [isBreakingMarker, nodeBEq_iff] at h
  rw [h]
  decide

theorem cbMarkerN_le_text (n : Node) (h : containsBreakingMarkerN n = true) :
    containsBreakingTextN n = true := by
  induction n using Node.rec
      (motive_2 := fun l => containsBreakingMarkerL l = true →
        containsBreakingTextL l = true) with
  | mk ty d v lg ur cs ih =>
    simp only [containsBreakingMarkerN, Bool.or_eq_true] at h
    rcases h with h | h
    · exact isBreakingMarker_text _ h
    · simp only [containsBreakingTextN, Bool.or_eq_true]
      exact Or.inr (ih h)
  | nil =>
    rename_i hh
    simp [containsBreakingMarkerL] at hh
  | cons hd tl ih1 ih2 =>
    rename_i hh
    simp only [containsBreakingMarkerL, Bool.or_eq_true] at hh
    simp only [containsBreakingTextL, Bool.or_eq_true]
    rcases hh with hh | hh
    · exact Or.inl (ih1 hh)
    · exact Or.inr (ih2 hh)

theorem cbMarkerL_le_text (l : List Node) (h : containsBreakingMarkerL l = true) :
    containsBreakingTextL l = true := by
  induction l with
  | nil => simp [containsBreakingMarkerL] at h
  | cons hd tl ih =>
    simp only [containsBreakingMarkerL, Bool.or_eq_true] at h
    simp only [containsBreakingTextL, Bool.or_eq_true]
    rcases h with h | h
    · exact Or.inl (cbMarkerN_le_text hd h)
    · exact Or.inr (ih h)

/-- C4 (amended): when `breakingDifferencesFound` is false, the Change
Notifier Inserter never inserts a BREAKING marker, regardless of the
contents of the `breakingDifferences` collection: any tree containing no
`"BREAKING CHANGES"` text yields a tree with no BREAKING marker
paragraph.  (The claimed whole-pipeline tree-state invariant fails: the
Boilerplate Stripper can remove a node from inside a paragraph and leave
a marker-shaped paragraph behind, see the counterexample.) -/
theorem C4_amended_notifier_no_breaking_insert (specs : List Spec)
    (specsDiff : DiffOutcome) (t out : Node)
    (hf : specsDiff.breakingDifferencesFound = false)
    (htext : containsBreakingTextN t = false)
    (hok : insertChangeNotifier specs specsDiff t = .ok out) :
    containsBreakingMarkerN out = false := by
  have h1 : containsBreakingTextN out = false := by
    cases t with
    | mk ty d v lg ur cs =>
      rw [insertChangeNotifier, insertNode_mk] at hok
      cases hcs : insertL specs specsDiff cs with
      | error e => rw [hcs] at hok; simp [exceptBind_error] at hok
      | ok cs2 =>
        rw [hcs] at hok
        simp [exceptBind_ok, exceptPure] at hok
        rw [← hok]
        simp only [containsBreakingTextN] at htext ⊢
        rw [insertL_cbTextL specs specsDiff hf cs cs2 hcs]
        exact htext
  by_cases hm : containsBreakingMarkerN out
  · rw [cbMarkerN_le_text out hm] at h1
    exact absurd h1 (by simp)
  · simpa using hm

/-- A diff outcome whose flag is false while the breaking collection has
contents. -/
def exDiffFalseWithContents : DiffOutcome :=
  ⟨false, some [⟨[⟨"paths./pets.post"⟩], []⟩], none, none⟩

/-- Concrete instantiation of the amended no-BREAKING-insert property. -/
theorem C4_amended_notifier_no_breaking_insert_witness :
    containsBreakingMarkerN (uRoot [uHeading 3 [uText "Misc"],
      uParagraph [uText "body"]]) = false :=
  C4_amended_notifier_no_breaking_insert petstoreSpecs exDiffFalseWithContents
    (uRoot [uHeading 3 [uText "Misc"], uParagraph [uText "body"]])
    (uRoot [uHeading 3 [uText "Misc"], uParagraph [uText "body"]])
    (by decide) (by decide)
    (insertNode_id petstoreSpecs exDiffFalseWithContents _ (by decide))

/-- C4 (counterexample): the tree-state invariant is not preserved by
every stage of the pipeline.  The input tree contains no BREAKING marker
paragraph (a `Scroll down for` blockquote sits between the marker
components), yet with `breakingDifferencesFound = false` the full
pipeline produces a tree containing one: the Boilerplate Stripper removes
the blockquote from inside the paragraph, leaving exactly the marker
shape. -/
theorem C4_counterexample :
    containsBreakingMarkerN (uRoot [uParagraph
      [uText "🚨 ", uStrong [uText "BREAKING CHANGES"],
       uBlockquote [uParagraph [uText "Scroll down for code samples"]],
       uText " 🚨"]]) = false ∧
    (processTree [] exDiffFalseWithContents "petstore.yaml"
        (uRoot [uParagraph
          [uText "🚨 ", uStrong [uText "BREAKING CHANGES"],
           uBlockquote [uParagraph [uText "Scroll down for code samples"]],
           uText " 🚨"]])).toOption.map containsBreakingMarkerN = some true := by
  constructor
  · decide
  · have h1 : removeUnwantedNodes (uRoot [uParagraph
        [uText "🚨 ", uStrong [uText "BREAKING CHANGES"],
         uBlockquote [uParagraph [uText "Scroll down for code samples"]],
         uText " 🚨"]]) =
      uRoot [uParagraph
        [uText "🚨 ", uStrong [uText "BREAKING CHANGES"], uText " 🚨"]] := by decide
    have h2 : wrapOperationsWithDetails (uRoot [uParagraph
        [uText "🚨 ", uStrong [uText "BREAKING CHANGES"], uText " 🚨"]]) =
      uRoot [uParagraph
        [uText "🚨 ", uStrong [uText "BREAKING CHANGES"], uText " 🚨"]] :=
      wrapNode_id _ (by decide)
    have h3 : insertChangeNotifier [] exDiffFalseWithContents (uRoot [uParagraph
        [uText "🚨 ", uStrong [uText "BREAKING CHANGES"], uText " 🚨"]]) =
      .ok (uRoot [uParagraph
        [uText "🚨 ", uStrong [uText "BREAKING CHANGES"], uText " 🚨"]]) :=
      insertNode_id _ _ _ (by decide)
    have e1 : processTree [] exDiffFalseWithContents "petstore.yaml"
        (uRoot [uParagraph
          [uText "🚨 ", uStrong [uText "BREAKING CHANGES"],
           uBlockquote [uParagraph [uText "Scroll down for code samples"]],
           uText " 🚨"]]) =
        (insertChangeNotifier [] exDiffFalseWithContents
          (wrapOperationsWithDetails (removeUnwantedNodes
            (uRoot [uParagraph
              [uText "🚨 ", uStrong [uText "BREAKING CHANGES"],
               uBlockquote [uParagraph [uText "Scroll down for code samples"]],
               uText " 🚨"]]))) >>= fun t3 =>
          insertHeader "petstore.yaml" exDiffFalseWithContents
            (incrementHeadingDepth t3)) := rfl
    rw [e1, h1, h2, h3, exceptBind_ok]
    decide


theorem serializeMarkup_mem (es : List MarkupElem) (e : MarkupElem) (h : e ∈ es) :
    ∃ l r : String, serializeMarkup es =
      l ++ ("<" ++ e.tagName ++ ">" ++ e.inner ++ "</" ++ e.tagName ++ ">") ++ r := by
  induction es with
  | nil => simp at h
  | cons hd tl ih =>
    rcases List.mem_cons.mp h with h1 | h1
    · refine ⟨"", serializeMarkup tl, ?_⟩
      rw [h1]
      simp [serializeMarkup, String.append_assoc]
    · rcases ih h1 with ⟨l, r, hr⟩
      refine ⟨"<" ++ hd.tagName ++ ">" ++ hd.inner ++ "</" ++ hd.tagName ++ ">" ++ l,
        r, ?_⟩
      simp [serializeMarkup, hr, String.append_assoc]

theorem headingDepthsN_incDepths (t : Node) :
    headingDepthsN (incDepthsNode t) = (headingDepthsN t).map (· + 1) := by
  induction t using Node.rec
      (motive_2 := fun l => headingDepthsL (incDepthsL l) = (headingDepthsL l).map (· + 1)) with
  | mk ty d v lg ur cs ih =>
    simp only [incDepthsNode, headingDepthsN]
    by_cases hty : ty == "heading"
    · simp [hty, ih]
    · simp [hty, ih]
  | nil => simp [incDepthsL, headingDepthsL]
  | cons hd tl ih1 ih2 =>
    simp [incDepthsL, headingDepthsL, ih1, ih2]

theorem headingDepthsN_bumpHtmls (t : Node) :
    headingDepthsN (bumpHtmlsNode t) = headingDepthsN t := by
  induction t using Node.rec
      (motive_2 := fun l => headingDepthsL (bumpHtmlsL l) = headingDepthsL l) with
  | mk ty d v lg ur cs ih =>
    simp only [bumpHtmlsNode, headingDepthsN]
    rw [ih]
  | nil => simp [bumpHtmlsL]
  | cons hd tl ih1 ih2 =>
    simp [bumpHtmlsL, headingDepthsL, ih1, ih2]

/-- C8: after the Heading Depth Normalizer, the preorder sequence of
heading depths is the old sequence shifted up by one (so a depth-`d`
heading has depth `d + 1`); a raw-markup value that fails to parse is
left byte-for-byte unchanged (the failure is swallowed, never surfaced:
`bumpHtmlValue` is total); and a well-formed value containing an element
with tag `h<d>` produces a value containing `<h(d+1)>` around the same
inner content. -/
theorem C8_heading_depth_normalizer :
    (∀ t : Node, headingDepthsN (incrementHeadingDepth t) =
      (headingDepthsN t).map (· + 1)) ∧
    (∀ v : String, parseMarkup v = none → bumpHtmlValue v = v) ∧
    (∀ (v : String) (es : List MarkupElem) (e : MarkupElem) (d : Nat),
      parseMarkup v = some es → e ∈ es → tagHeadingDepth e.tagName = some d →
      ∃ l r : String, bumpHtmlValue v =
        l ++ ("<" ++ ("h" ++ toString (d + 1)) ++ ">" ++ e.inner ++
          "</" ++ ("h" ++ toString (d + 1)) ++ ">") ++ r) := by
  refine ⟨fun t => ?_, fun v hp => ?_, fun v es e d hp hm htag => ?_⟩
  · rw [incrementHeadingDepth, headingDepthsN_bumpHtmls, headingDepthsN_incDepths]
  · simp [bumpHtmlValue, hp]
  · have hany : (es.any fun e2 => (tagHeadingDepth e2.tagName).isSome) = true := by
      rw [List.any_eq_true]
      exact ⟨e, hm, by simp [htag]⟩
    have hbe : bumpElem e = ⟨"h" ++ toString (d + 1), e.inner⟩ := by
      simp [bumpElem, htag]
    have hmem : (⟨"h" ++ toString (d + 1), e.inner⟩ : MarkupElem) ∈ es.map bumpElem := by
      rw [← hbe]
      exact List.mem_map_of_mem bumpElem hm
    rcases serializeMarkup_mem (es.map bumpElem) _ hmem with ⟨l, r, hr⟩
    refine ⟨l, r, ?_⟩
    rw [bumpHtmlValue, hp]
    simp only [hany, if_true]
    rw [hr]

/-- Concrete instantiations: a depth map over a small tree, an
unparseable fragment left unchanged, and `<h3>` bumped to `<h4>`. -/
theorem C8_heading_depth_normalizer_witness :
    headingDepthsN (incrementHeadingDepth (uRoot
      [Node.mk "heading" 2 "" "" "" [uText "T"], uParagraph [uText "x"],
       Node.mk "heading" 3 "" "" "" [uText "S"]])) =
      (headingDepthsN (uRoot
        [Node.mk "heading" 2 "" "" "" [uText "T"], uParagraph [uText "x"],
         Node.mk "heading" 3 "" "" "" [uText "S"]])).map (· + 1) ∧
    bumpHtmlValue "<details>" = "<details>" ∧
    ∃ l r : String, bumpHtmlValue "<h3>Title</h3>" =
      l ++ ("<" ++ ("h" ++ toString (3 + 1)) ++ ">" ++ "Title" ++
        "</" ++ ("h" ++ toString (3 + 1)) ++ ">") ++ r :=
  ⟨C8_heading_depth_normalizer.1 _,
   C8_heading_depth_normalizer.2.1 "<details>" (by decide),
   C8_heading_depth_normalizer.2.2 "<h3>Title</h3>" [⟨"h3", "Title"⟩] ⟨"h3", "Title"⟩ 3
     (by decide) (by decide) (by decide)⟩

/-- The breaking-changes banner paragraph pushed by `insertHeader` when
the flag is set. -/
def breakingBanner : Node :=
  uParagraph [uText "🚨 ", uStrong [uText "BREAKING CHANGES"], uText " 🚨"]

/-- Whether the banner paragraph occurs among a root's children. -/
def bannerPresent (t : Node) : Bool :=
  t.children.any fun n => nodeBEq n breakingBanner

/-- Reads a classification table row as (label, rendered count): the
label text inside the first cell's link, and the text value of the
second cell. -/
def rowEntry (r : Node) : Option (String × String) :=
  match r.children[0]?, r.children[1]? with
  | some lc, some cc =>
    match lc.children[0]? with
    | some lk =>
      match lk.children[0]?, cc.children[0]? with
      | some lt, some ct => some (lt.value, ct.value)
      | _, _ => none
    | none => none
  | _, _ => none

/-- The (label, rendered count) rows of the first table among a root's
children, skipping the column-header row. -/
def classificationRows (t : Node) : Option (List (String × String)) :=
  (t.children.find? fun n => n.type == "table").map fun tb =>
    (tb.children.drop 1).filterMap rowEntry

/-- C9 (counterexample): with `breakingDifferencesFound = false` but a
breaking-differences array of length 1, the rendered breaking count is
"0", not the array's length — the breaking count is keyed on the flag,
not on the array. -/
theorem C9_counterexample :
    exDiffFalseWithContents.breakingDifferencesFound = false ∧
    exDiffFalseWithContents.breakingDifferences.map List.length = some 1 ∧
    (insertHeader "petstore.yaml" exDiffFalseWithContents (uRoot [])).toOption.map
        classificationRows =
      some (some [("Breaking", "0"), ("Non-breaking", "0"), ("Unclassified", "0")]) :=
  ⟨rfl, rfl, rfl⟩

/-- C9 (amended): `insertHeader` renders the classification table rows in
the order Breaking, Non-breaking, Unclassified; the non-breaking and
unclassified counts are the corresponding array's length, 0 when the
array is absent; the breaking count is keyed on the
`breakingDifferencesFound` flag — 0 whenever the flag is false regardless
of the array, the array's length when the flag is true, and a `TypeError`
aborting the stage when the flag is true but the array is absent; the
banner paragraph is present iff the flag is set. -/
theorem C9_amended_header_builder :
    (∀ (p : String) (sd : DiffOutcome) (cs : List Node),
      insertHeader p sd (uRoot cs) =
        match sd.breakingDifferencesFound, sd.breakingDifferences with
        | true, none => .error errNoBreakingArray
        | true, some bs => .ok (uRoot (headerNodes p sd bs.length
            ((sd.nonBreakingDifferences.map List.length).getD 0)
            ((sd.unclassifiedDifferences.map List.length).getD 0) ++ cs))
        | false, _ => .ok (uRoot (headerNodes p sd 0
            ((sd.nonBreakingDifferences.map List.length).getD 0)
            ((sd.unclassifiedDifferences.map List.length).getD 0) ++ cs))) ∧
    (∀ (p : String) (sd : DiffOutcome) (b nb uc : Nat),
      classificationRows (uRoot (headerNodes p sd b nb uc)) =
        some [("Breaking", toString b), ("Non-breaking", toString nb),
              ("Unclassified", toString uc)] ∧
      bannerPresent (uRoot (headerNodes p sd b nb uc)) =
        sd.breakingDifferencesFound) := by
  refine ⟨fun p sd cs => ?_, fun p sd b nb uc => ?_⟩
  · rcases sd with ⟨f, bd, nbd, ud⟩
    cases f <;> cases bd <;> cases nbd <;> cases ud <;> rfl
  · rcases sd with ⟨f, bd, nbd, ud⟩
    cases f <;> exact ⟨rfl, rfl⟩

theorem incDepthsL_append (a b : List Node) :
    incDepthsL (a ++ b) = incDepthsL a ++ incDepthsL b := by
  induction a with
  | nil => simp [incDepthsL]
  | cons n ns ih => simp [incDepthsL, ih]

theorem bumpHtmlsL_append (a b : List Node) :
    bumpHtmlsL (a ++ b) = bumpHtmlsL a ++ bumpHtmlsL b := by
  induction a with
  | nil => simp [bumpHtmlsL]
  | cons n ns ih => simp [bumpHtmlsL, ih]

theorem incrementHeadingDepth_root (l : List Node) :
    incrementHeadingDepth (uRoot l) = uRoot (bumpHtmlsL (incDepthsL l)) := by
  simp [incrementHeadingDepth, uRoot, incDepthsNode, bumpHtmlsNode]

/- Full pipeline on one operation section whose heading correlates with a
breaking difference: the notifier paragraph lands between the (depth-bumped)
heading and the operation-id sibling, and the opening collapsible marker
sits after the operation-id sibling — so the notifier ends up outside the
marker pair, before the opening marker. -/
theorem processTree_breaking_section (rest : List Node) (bs : List DiffResult)
    (nbd ud : Option (List DiffResult))
    (hfix : removeUnwantedNodes (uRoot
        (Node.mk "heading" 2 "" "" "" [uText "Create Pet"] ::
          uParagraph [uHtml exAnchor] :: rest)) =
      uRoot (Node.mk "heading" 2 "" "" "" [uText "Create Pet"] ::
        uParagraph [uHtml exAnchor] :: rest))
    (hmatch : findMatchingDifference (some bs) "paths./pets.post" = true)
    (hbound : dcL boundaryTest rest = 0)
    (hnot : dcL notifierTest rest = 0) :
    processTree petstoreSpecs ⟨true, some bs, nbd, ud⟩ "petstore.yaml"
      (uRoot (Node.mk "heading" 2 "" "" "" [uText "Create Pet"] ::
        uParagraph [uHtml exAnchor] :: rest)) =
    .ok (uRoot (headerNodes "petstore.yaml" ⟨true, some bs, nbd, ud⟩ bs.length
        ((nbd.map List.length).getD 0) ((ud.map List.length).getD 0) ++
      (Node.mk "heading" 3 "" "" "" [uText "Create Pet"] :: breakingNotifier ::
        uParagraph [uHtml exAnchor] :: openDetails ::
        (bumpHtmlsL (incDepthsL rest) ++ [closeDetails])))) := by
  have e1 : processTree petstoreSpecs ⟨true, some bs, nbd, ud⟩ "petstore.yaml"
      (uRoot (Node.mk "heading" 2 "" "" "" [uText "Create Pet"] ::
        uParagraph [uHtml exAnchor] :: rest)) =
      (insertChangeNotifier petstoreSpecs ⟨true, some bs, nbd, ud⟩
          (wrapOperationsWithDetails (removeUnwantedNodes
            (uRoot (Node.mk "heading" 2 "" "" "" [uText "Create Pet"] ::
              uParagraph [uHtml exAnchor] :: rest)))) >>= fun t3 =>
        insertHeader "petstore.yaml" ⟨true, some bs, nbd, ud⟩
          (incrementHeadingDepth t3)) := rfl
  have e2 : wrapOperationsWithDetails (uRoot
      (Node.mk "heading" 2 "" "" "" [uText "Create Pet"] ::
        uParagraph [uHtml exAnchor] :: rest)) =
      uRoot (Node.mk "heading" 2 "" "" "" [uText "Create Pet"] ::
        uParagraph [uHtml exAnchor] :: openDetails :: (rest ++ [closeDetails])) := by
    simp only [wrapOperationsWithDetails, uRoot]
    rw [wrapNode_mk]
    rw [wrapL_structural_section_last "" "" "" [uText "Create Pet"]
      (uParagraph [uHtml exAnchor]) rest (by decide) hbound]
    rw [wrapNode_mk, wrapL_id _ (by decide)]
    rfl
  have hrest2 : dcL notifierTest (openDetails :: (rest ++ [closeDetails])) = 0 := by
    simp [dcL, dcL_append, hnot,
      show dcN notifierTest openDetails = 0 from by decide,
      show dcN notifierTest closeDetails = 0 from by decide]
  have e3 := (insertL_petstore_scenarios [uText "Create Pet"]
      (openDetails :: (rest ++ [closeDetails])) ⟨true, some bs, nbd, ud⟩
      (by decide) hrest2).1 rfl hmatch
  have e3' : insertChangeNotifier petstoreSpecs ⟨true, some bs, nbd, ud⟩
      (uRoot (Node.mk "heading" 2 "" "" "" [uText "Create Pet"] ::
        uParagraph [uHtml exAnchor] :: openDetails :: (rest ++ [closeDetails]))) =
      .ok (uRoot (Node.mk "heading" 2 "" "" "" [uText "Create Pet"] ::
        breakingNotifier :: uParagraph [uHtml exAnchor] :: openDetails ::
          (rest ++ [closeDetails]))) := by
    simp only [insertChangeNotifier, uRoot]
    rw [insertNode_mk, e3]
    rfl
  have ePre : bumpHtmlsL (incDepthsL
      [Node.mk "heading" 2 "" "" "" [uText "Create Pet"], breakingNotifier,
       uParagraph [uHtml exAnchor], openDetails]) =
      [Node.mk "heading" 3 "" "" "" [uText "Create Pet"], breakingNotifier,
       uParagraph [uHtml exAnchor], openDetails] := by decide
  have eCd : bumpHtmlsL (incDepthsL [closeDetails]) = [closeDetails] := by decide
  have e4 : incrementHeadingDepth (uRoot
      (Node.mk "heading" 2 "" "" "" [uText "Create Pet"] :: breakingNotifier ::
        uParagraph [uHtml exAnchor] :: openDetails :: (rest ++ [closeDetails]))) =
      uRoot (Node.mk "heading" 3 "" "" "" [uText "Create Pet"] :: breakingNotifier ::
        uParagraph [uHtml exAnchor] :: openDetails ::
        (bumpHtmlsL (incDepthsL rest) ++ [closeDetails])) := by
    rw [incrementHeadingDepth_root]
    rw [show (Node.mk "heading" 2 "" "" "" [uText "Create Pet"] :: breakingNotifier ::
        uParagraph [uHtml exAnchor] :: openDetails :: (rest ++ [closeDetails])) =
      [Node.mk "heading" 2 "" "" "" [uText "Create Pet"], breakingNotifier,
       uParagraph [uHtml exAnchor], openDetails] ++ (rest ++ [closeDetails]) from rfl]
    rw [incDepthsL_append, bumpHtmlsL_append, incDepthsL_append, bumpHtmlsL_append,
      ePre, eCd]
    rfl
  rw [e1, hfix, e2, e3', exceptBind_ok, e4]
  cases nbd <;> cases ud <;> rfl

/-- C1 (counterexample): the Section Collapser runs BEFORE the Change
Notifier Inserter, so the notifier paragraph does not end up inside its
operation's collapsible block.  On a concrete one-operation document with
a correlating breaking difference, the final tree places
`breakingNotifier` between the heading and the operation-id sibling,
while the opening marker `openDetails` comes only after that sibling: the
notifier sits before the opening marker, outside the
`openDetails`/`closeDetails` pair. -/
theorem C1_counterexample :
    processTree petstoreSpecs exDiffBreaking "petstore.yaml"
      (uRoot [Node.mk "heading" 2 "" "" "" [uText "Create Pet"],
              uParagraph [uHtml exAnchor], uParagraph [uText "body"]]) =
    .ok (uRoot (headerNodes "petstore.yaml" exDiffBreaking 1 0 0 ++
      [Node.mk "heading" 3 "" "" "" [uText "Create Pet"], breakingNotifier,
       uParagraph [uHtml exAnchor], openDetails, uParagraph [uText "body"],
       closeDetails])) :=
  processTree_breaking_section [uParagraph [uText "body"]]
    [⟨[], [⟨"paths./pets.post.requestBody"⟩]⟩] none none
    (by decide) (by decide) (by decide) (by decide)

/-- C1 (amended): the Pipeline Driver composes the stages in the order
Boilerplate Stripper, then Section Collapser, then Change Notifier
Inserter (then Heading Depth Normalizer, then Summary Header Builder) —
the collapser runs BEFORE the notifier inserter, not after it.  As a
consequence, on an operation section whose heading correlates with a
breaking difference, the notifier paragraph is spliced between the
heading and the operation-id sibling, while the opening collapsible
marker sits after that sibling: the notifier ends up before the opening
marker, outside its operation's collapsible block. -/
theorem C1_amended_pipeline_order :
    (∀ (specs : List Spec) (sd : DiffOutcome) (p : String) (t : Node),
      processTree specs sd p t =
        (insertChangeNotifier specs sd
            (wrapOperationsWithDetails (removeUnwantedNodes t)) >>= fun t3 =>
          insertHeader p sd (incrementHeadingDepth t3))) ∧
    (∀ (rest : List Node) (bs : List DiffResult) (nbd ud : Option (List DiffResult)),
      removeUnwantedNodes (uRoot
          (Node.mk "heading" 2 "" "" "" [uText "Create Pet"] ::
            uParagraph [uHtml exAnchor] :: rest)) =
        uRoot (Node.mk "heading" 2 "" "" "" [uText "Create Pet"] ::
          uParagraph [uHtml exAnchor] :: rest) →
      findMatchingDifference (some bs) "paths./pets.post" = true →
      dcL boundaryTest rest = 0 →
      dcL notifierTest rest = 0 →
      processTree petstoreSpecs ⟨true, some bs, nbd, ud⟩ "petstore.yaml"
        (uRoot (Node.mk "heading" 2 "" "" "" [uText "Create Pet"] ::
          uParagraph [uHtml exAnchor] :: rest)) =
      .ok (uRoot (headerNodes "petstore.yaml" ⟨true, some bs, nbd, ud⟩ bs.length
          ((nbd.map List.length).getD 0) ((ud.map List.length).getD 0) ++
        (Node.mk "heading" 3 "" "" "" [uText "Create Pet"] :: breakingNotifier ::
          uParagraph [uHtml exAnchor] :: openDetails ::
          (bumpHtmlsL (incDepthsL rest) ++ [closeDetails]))))) :=
  ⟨fun _ _ _ _ => rfl,
   fun rest bs nbd ud h1 h2 h3 h4 =>
     processTree_breaking_section rest bs nbd ud h1 h2 h3 h4⟩

/-- Concrete instantiation of the amended pipeline-order property: one
operation section followed by a parameters paragraph, with one
correlating breaking difference. -/
theorem C1_amended_pipeline_order_witness :
    processTree petstoreSpecs
        ⟨true, some [⟨[], [⟨"paths./pets.post.requestBody"⟩]⟩], none, none⟩
        "petstore.yaml"
        (uRoot [Node.mk "heading" 2 "" "" "" [uText "Create Pet"],
                uParagraph [uHtml exAnchor], uParagraph [uText "Parameters"]]) =
      .ok (uRoot (headerNodes "petstore.yaml"
          ⟨true, some [⟨[], [⟨"paths./pets.post.requestBody"⟩]⟩], none, none⟩
          1 0 0 ++
        [Node.mk "heading" 3 "" "" "" [uText "Create Pet"], breakingNotifier,
         uParagraph [uHtml exAnchor], openDetails, uParagraph [uText "Parameters"],
         closeDetails])) :=
  C1_amended_pipeline_order.2 [uParagraph [uText "Parameters"]]
    [⟨[], [⟨"paths./pets.post.requestBody"⟩]⟩] none none
    (by decide) (by decide) (by decide) (by decide)
